import Mathlib

/-!
Verification of the MaiBot-Napcat-Adapter / maim_message core against its
natural-language specification.

The Lean definitions below are a shallow embedding of the Python source:

* `src/MaiBot-Napcat-Adapter/src/message_queue.py` — correlation store
  (`get_response`, `put_response`, `check_timeout_response`);
* `src/MaiBot-Napcat-Adapter/main.py` — inbound classifier (`message_recv`);
* `src/MaiBot-Napcat-Adapter/src/recv_handler.py` — inbound transcoder
  (`handle_raw_message`, `handle_forward_message`, `_handle_forward_message`,
  `_recursive_parse_image_seg`);
* `src/MaiBot-Napcat-Adapter/src/send_handler.py` — outbound transcoder
  (`handle_seg`, `handle_seg_recursive`, `process_message_by_type`,
  `build_payload`);
* `src/maim_message/src/maim_message/router.py` — connection router
  (`remove_platform`, `add_platform`, `connect`, `_adjust_connections`,
  `update_config`).

Python dicts are modelled as association lists with dict-style update
(replace-in-place or append); wall-clock times are modelled as integers;
network effects (HTTP image fetches, websocket round trips) are modelled as
function parameters supplied by the environment.
-/

namespace MaimConnect

/-! ## Python dict model (association lists) -/
/-- Embedding of `d[k]` lookup: first binding of `k`, if any. -/
def dlookup {κ α : Type} [DecidableEq κ] (d : List (κ × α)) (k : κ) : Option α :=
  match d with
  | [] => none
  | (k', v) :: t => if k' = k then some v else dlookup t k

/-- Embedding of `d[k] = v` dict assignment: replaces the binding in place, else appends. -/
def dinsert {κ α : Type} [DecidableEq κ] (d : List (κ × α)) (k : κ) (v : α) :
    List (κ × α) :=
  match d with
  | [] => [(k, v)]
  | (k', v') :: t => if k' = k then (k, v) :: t else (k', v') :: dinsert t k v

/-- Embedding of `d.pop(k)` / `del d[k]`: removes the binding of `k`. -/
def derase {κ α : Type} [DecidableEq κ] (d : List (κ × α)) (k : κ) :
    List (κ × α) :=
  match d with
  | [] => []
  | (k', v') :: t => if k' = k then t else (k', v') :: derase t k

/-! ## Correlation Store — `src/message_queue.py`

`response_dict` maps each response's `echo` token (a string, or Python `None`
when the frame carries no echo) to the response; `response_time_dict` maps the
same key to the arrival time.  The two dicts are modelled as a pair of
association lists keyed by `Option String`. -/
/-- The store's value type is abstract (Python response dicts). -/
structure Store (α : Type) where
  response_dict : List (Option String × α)
  response_time_dict : List (Option String × Int)
deriving Repr, DecidableEq

/-- Embedding of `max_retries = 50  # 10秒超时` from `get_response`. -/
def max_retries : Nat := 50

/-- The poll sleep `asyncio.sleep(0.2)` in milliseconds. -/
def poll_tick_ms : Nat := 200

/-- The loop body of `get_response`.  `hist k` is the state of the global
store at the k-th evaluation of the `while request_id not in response_dict`
condition (the store is mutated concurrently by `put_response`, which the
embedding renders as this externally supplied history).  Returns the response
(`none` models the raised `TimeoutError`), the store after the call, and the
number of membership checks performed. -/
def get_response_loop {α : Type} (hist : Nat → Store α) (request_id : String) :
    Nat → Nat → Option α × Store α × Nat
  | retry_count, k =>
    let s := hist k
    match dlookup s.response_dict (some request_id) with
    | some response =>
        (some response,
         ⟨derase s.response_dict (some request_id),
          derase s.response_time_dict (some request_id)⟩,
         k + 1)
    | none =>
        let retry := retry_count + 1
        if max_retries ≤ retry then (none, s, k + 1)
        else get_response_loop hist request_id retry (k + 1)
termination_by retry_count => max_retries - retry_count
decreasing_by simp [max_retries] at *; omega

/-- Embedding of `get_response(request_id)` from `src/message_queue.py`. -/
def get_response {α : Type} (hist : Nat → Store α) (request_id : String) :
    Option α × Store α × Nat :=
  get_response_loop hist request_id 0 0

/-- Embedding of `put_response(response)` from `src/message_queue.py`: stores the response
under its `echo` key together with the arrival time `now`.  The returned list
of warnings is empty: the function logs nothing. -/
def put_response {α : Type} (s : Store α) (echo : Option String) (response : α)
    (now : Int) : Store α × List String :=
  (⟨dinsert s.response_dict echo response,
    dinsert s.response_time_dict echo now⟩, [])

/-- One iteration of the sweep loop body of `check_timeout_response`: walks a
snapshot of `response_time_dict.items()` and pops every entry whose age
exceeds `interval` (`global_config.napcat_heartbeat_interval`) from both
dicts, counting removals. -/
def check_timeout_sweep {α : Type} (s : Store α) (now : Int) (interval : Int) :
    Store α × Nat :=
  s.response_time_dict.foldl
    (fun (acc : Store α × Nat) kv =>
      if now - kv.2 > interval then
        (⟨derase acc.1.response_dict kv.1, derase acc.1.response_time_dict kv.1⟩,
         acc.2 + 1)
      else acc)
    (s, 0)

/-- Embedding of `napcat_heartbeat_interval: int = 30` — the default from
`src/config.py`; `check_timeout_response` uses it both as the expiry
threshold and as the sleep between sweeps. -/
def napcat_heartbeat_interval : Int := 30

/-- A store history that never holds a response (no concurrent `put_response`). -/
def histEmpty : Nat → Store Nat := fun _ => ⟨[], []⟩

/-- A store history in which token `t` has already been answered with `7`. -/
def histOne : Nat → Store Nat := fun _ => ⟨[(some "t", 7)], [(some "t", 3)]⟩

/-- Sequential `pop` of a list of keys (the sweep pops each expired key). -/
def eraseAll {κ α : Type} [DecidableEq κ] (d : List (κ × α)) (ks : List κ) :
    List (κ × α) :=
  ks.foldl derase d

/-- The keys the sweep pops: keys of `response_time_dict` entries whose age
exceeds the interval. -/
def expiredKeys (td : List (Option String × Int)) (now interval : Int) :
    List (Option String) :=
  (td.filter (fun kv => now - kv.2 > interval)).map Prod.fst

/-! ## Inbound Classifier — `message_recv` in `main.py`

For each decoded frame, `message_recv` reads `post_type` and dispatches:
`"meta_event"`, `"message"`, `"notice"` → `message_queue.put`; `None` →
`put_response`; any other value matches no branch and the frame is
discarded without any log statement. -/
/-- What `message_recv` does with one decoded frame. -/
inductive ClassifyAction where
  | enqueue
  | putResp
  | ignore
deriving Repr, DecidableEq

/-- The `post_type` dispatch of `message_recv`, together with the warnings the
branch logs (every branch logs none). -/
def message_recv_classify (postType : Option String) :
    ClassifyAction × List String :=
  if postType = some "meta_event" then (.enqueue, [])
  else if postType = some "message" then (.enqueue, [])
  else if postType = some "notice" then (.enqueue, [])
  else if postType = none then (.putResp, [])
  else (.ignore, [])

/-- The `async for raw_message in server_connection` loop of `message_recv`,
over a finite prefix of the connection's frames.  A frame is modelled as its
`post_type` plus an identifying payload.  Returns the FIFO queue contents in
push order, the frames handed to `put_response` in order, and all warnings
logged by the classifier. -/
def message_recv_loop (frames : List (Option String × Nat)) :
    List Nat × List Nat × List String :=
  match frames with
  | [] => ([], [], [])
  | (pt, payload) :: rest =>
    let (q, r, w) := message_recv_loop rest
    match (message_recv_classify pt).1 with
    | .enqueue => (payload :: q, r, (message_recv_classify pt).2 ++ w)
    | .putResp => (q, payload :: r, (message_recv_classify pt).2 ++ w)
    | .ignore => (q, r, (message_recv_classify pt).2 ++ w)

/-! ## Segment trees

Modelled from the spec: the `Seg` dataclass itself lives in
`maim_message/message_base.py`, which is absent from the snapshot; §3 of the
spec defines Segment as `{type, data}` where only `seglist` carries children
and every other type carries a scalar payload, which matches every
construction site in `recv_handler.py` and `send_handler.py`.  Two extra
constructors embed the non-`Seg` Python values that
`RecvHandler._handle_forward_message` can place inside a seglist's data:
the tuple `(Seg, 0)` its depth-truncation branch appends, and `None` from an
empty nested recursion. -/
inductive Seg where
  /-- A scalar-payload Seg: `Seg(type=t, data=payload)` with a string payload. -/
  | seg (type : String) (payload : String)
  /-- Embedding of `Seg(type="seglist", data=children)`. -/
  | seglist (children : List Seg)
  /-- The Python tuple `(s, n)` — not a Seg; `.type` on it raises `AttributeError`. -/
  | tup (s : Seg) (n : Nat)
  /-- Python `None` — not a Seg; `.type` on it raises `AttributeError`. -/
  | pynone
deriving Repr

/-! ## Outbound Segment Transcoder — `src/send_handler.py` -/
/-- One element of the gateway action payload list built by `SendHandler`. -/
inductive OutElem where
  /-- Embedding of `{"type": "reply", "data": {"id": id}}` from `handle_reply_message`. -/
  | reply (id : String)
  /-- Embedding of `{"type": "text", "data": {"text": s}}` from `handle_text_message`. -/
  | text (s : String)
  /-- Embedding of `{"type": "image", "data": {"file": file, "subtype": 0}}`. -/
  | image (file : String)
  /-- Embedding of `{"type": "image", "data": {"file": file, "subtype": 1, "summary": ...}}`. -/
  | emojiImage (file : String) (summary : String)
deriving Repr, DecidableEq

namespace SendHandler

/-- Embedding of `SendHandler.build_payload`: prepend the addon when it is a reply,
append it otherwise. -/
def build_payload (payload : List OutElem) (addon : OutElem)
    (is_reply : Bool) : List OutElem :=
  if is_reply then addon :: payload else payload ++ [addon]

/-- Embedding of `SendHandler.handle_emoji_message`, with `get_image_format` and
`convert_image_to_gif` (both in `utils.py`, pure image plumbing) supplied as
function parameters `gf` and `tg`. -/
def handle_emoji_message (gf tg : String → String) (encoded_emoji : String) :
    OutElem :=
  let encoded_image := if gf encoded_emoji ≠ "gif" then tg encoded_emoji
    else encoded_emoji
  .emojiImage ("base64://" ++ encoded_image) "[动画表情]"

/-- Embedding of `SendHandler.process_message_by_type`: dispatch on `seg.type`.  Note that
no branch matches `"seglist"`, so a nested seglist leaves the payload
unchanged — its children are never visited.  On the non-Seg values the
attribute access `seg.type` raises `AttributeError`. -/
def process_message_by_type (gf tg : String → String) (seg : Seg)
    (payload : List OutElem) : Except String (List OutElem) :=
  match seg with
  | .seg t d =>
    if t = "reply" then
      if d = "notice" then .ok []
      else .ok (build_payload payload (.reply d) true)
    else if t = "text" then .ok (build_payload payload (.text d) false)
    else if t = "face" then .ok payload
    else if t = "image" then
      .ok (build_payload payload (.image ("base64://" ++ d)) false)
    else if t = "emoji" then
      .ok (build_payload payload (handle_emoji_message gf tg d) false)
    else .ok payload
  | .seglist _ => .ok payload
  | .tup _ _ => .error "AttributeError"
  | .pynone => .error "AttributeError"

/-- The `for seg in seg_data.data: payload = self.process_message_by_type(seg, payload)`
loop of `handle_seg_recursive`. -/
def process_fold (gf tg : String → String) :
    List Seg → List OutElem → Except String (List OutElem)
  | [], payload => .ok payload
  | s :: rest, payload =>
    match process_message_by_type gf tg s payload with
    | .ok p2 => process_fold gf tg rest p2
    | .error e => .error e

/-- Embedding of `SendHandler.handle_seg_recursive`. -/
def handle_seg_recursive (gf tg : String → String) (seg_data : Seg) :
    Except String (List OutElem) :=
  match seg_data with
  | .seglist children => process_fold gf tg children []
  | s => process_message_by_type gf tg s []

/-- The send decision `handle_seg` takes after flattening: the exception
branch and the empty payload both end in no send action; otherwise group
addressing wins over private addressing. -/
inductive SendDecision where
  | sendGroup (group_id : Int) (message : List OutElem)
  | sendPrivate (user_id : Int) (message : List OutElem)
  | noSend
deriving Repr, DecidableEq

/-- The tail of `SendHandler.handle_seg`: what is sent, given the group/user
addressing of the incoming MessageBase and the flatten result. -/
def handle_seg_decision (group_id user_id : Option Int)
    (processed : Except String (List OutElem)) : SendDecision :=
  match processed with
  | .error _ => .noSend
  | .ok p =>
    if p = [] then .noSend
    else
      match group_id, user_id with
      | some g, some _ => .sendGroup g p
      | none, some u => .sendPrivate u p
      | _, none => .noSend

/-- The payload contribution of one segment that is not a reply (used to
state order preservation). -/
def flat_elem (gf tg : String → String) (s : Seg) : List OutElem :=
  match s with
  | .seg t d =>
    if t = "text" then [.text d]
    else if t = "image" then [.image ("base64://" ++ d)]
    else if t = "emoji" then [handle_emoji_message gf tg d]
    else []
  | _ => []

/-- True exactly on segments whose `type` is `"reply"`. -/
def is_reply_seg : Seg → Bool
  | .seg t _ => t = "reply"
  | _ => false

/-- True on the non-Seg Python values, where `seg.type` raises. -/
def seg_crashes : Seg → Bool
  | .tup _ _ => true
  | .pynone => true
  | _ => false

end SendHandler

/-! ## Inbound forward-message expansion — `RecvHandler` in `recv_handler.py`

`_handle_forward_message(message_list, layer)` walks the forward entries.
Each entry carries a `sender` dict (only `nickname` is read, with default
`"QQ用户"`) and a `message` array of which only element `[0]` is read; the
embedding therefore keeps exactly the nickname and that first element. -/

namespace RecvHandler

mutual
/-- The first element of a forward entry's `message` array, by its `type`. -/
inductive FwdElem where
  /-- Embedding of `type == "forward"`; `data.content` holds the nested entries. -/
  | forward (content : List FwdEntry)
  /-- Embedding of `type == "text"`; `data.text`. -/
  | text (s : String)
  /-- Embedding of `type == "image"`; `data.sub_type` (0 = picture, else sticker) and `data.url`. -/
  | image (sub_type : Nat) (url : String)
  /-- Any other `type`: no branch of the `if` chain matches, nothing is emitted. -/
  | otherElem (type : String)

/-- One element of a forward `messages`/`content` list. -/
inductive FwdEntry where
  | mk (nickname : Option String) (head : FwdElem)
end

/-- Embedding of `"--" * layer`. -/
def dashes (layer : Nat) : String :=
  String.join (List.replicate layer "--")

mutual
/-- The `for sub_message in message_list` loop body of
`_handle_forward_message`: the items appended to `seg_list` and the total
added to `image_count`.  The nested-forward branch at `layer >= 3` appends
`full_seg_data = (Seg(...), 0)` — a Python tuple, kept verbatim as `.tup`;
the recursive branch inlines the `None, 0` result of an empty nested list as
`.pynone` placed inside the wrapping seglist, exactly as the Python code
stores the returned `seg_data` there. -/
def handleForwardItems : List FwdEntry → Nat → List Seg × Nat
  | [], _ => ([], 0)
  | e :: rest, layer =>
    let r1 := handleForwardEntry e layer
    let r2 := handleForwardItems rest layer
    (r1.1 ++ r2.1, r1.2 + r2.2)

/-- One `sub_message` of the loop. -/
def handleForwardEntry : FwdEntry → Nat → List Seg × Nat
  | .mk nickname head, layer =>
    let user_nickname := nickname.getD "QQ用户"
    let user_nickname_str := "【" ++ user_nickname ++ "】:"
    let break_seg : Seg := .seg "text" "\n"
    match head with
    | .forward content =>
      if layer ≥ 3 then
        ([.tup (.seg "text"
            (dashes layer ++ "【" ++ user_nickname ++ "】:【转发消息】\n")) 0], 0)
      else
        let sub : Seg × Nat :=
          match content with
          | [] => (.pynone, 0)
          | _ =>
            let r := handleForwardItems content (layer + 1)
            (.seglist r.1, r.2)
        let head_tip : Seg := .seg "text"
          (dashes layer ++ "【" ++ user_nickname ++ "】: 合并转发消息内容：\n")
        ([.seglist [head_tip, sub.1]], sub.2)
    | .text s =>
      let seg_data : Seg := .seg "text" s
      if layer > 0 then
        ([.seglist [.seg "text" (dashes layer ++ user_nickname_str), seg_data,
          break_seg]], 0)
      else
        ([.seglist [.seg "text" user_nickname_str, seg_data, break_seg]], 0)
    | .image sub_type url =>
      let seg_data : Seg :=
        if sub_type = 0 then .seg "image" url else .seg "emoji" url
      if layer > 0 then
        ([.seglist [.seg "text" (dashes layer ++ user_nickname_str), seg_data,
          break_seg]], 1)
      else
        ([.seglist [.seg "text" user_nickname_str, seg_data, break_seg]], 1)
    | .otherElem _ => ([], 0)
end

/-- Embedding of `RecvHandler._handle_forward_message(message_list, layer)`: `None, 0` on an
empty (or `None`) list, else the seglist of the loop's items with the image
count. -/
def handleForwardList (l : List FwdEntry) (layer : Nat) : Option Seg × Nat :=
  match l with
  | [] => (none, 0)
  | _ =>
    let r := handleForwardItems l layer
    (some (.seglist r.1), r.2)

mutual
/-- Embedding of `RecvHandler._recursive_parse_image_seg(seg_data, to_image)`.
`fetch` models `get_image_base64` (`none` = the fetch raised, which the
`try/except` turns into a text placeholder).  On the non-Seg values stored by
the truncation branch, the dispatch `seg_data.type` raises `AttributeError`,
which nothing in `handle_forward_message` catches. -/
def recursive_parse_image_seg (fetch : String → Option String) (to_image : Bool) :
    Seg → Except String Seg
  | .seglist l =>
    match recursive_parse_image_list fetch to_image l with
    | .ok nl => .ok (.seglist nl)
    | .error e => .error e
  | .seg t p =>
    if t = "image" then
      if to_image then
        match fetch p with
        | some encoded_image => .ok (.seg "image" encoded_image)
        | none => .ok (.seg "text" "[图片]")
      else .ok (.seg "text" "【图片】")
    else if t = "emoji" then
      if to_image then
        match fetch p with
        | some encoded_image => .ok (.seg "emoji" encoded_image)
        | none => .ok (.seg "text" "[表情包]")
      else .ok (.seg "text" "【动画表情】")
    else .ok (.seg t p)
  | .tup _ _ => .error "AttributeError"
  | .pynone => .error "AttributeError"

/-- The `for i_seg in seg_data.data` loop of `_recursive_parse_image_seg`. -/
def recursive_parse_image_list (fetch : String → Option String)
    (to_image : Bool) : List Seg → Except String (List Seg)
  | [] => .ok []
  | s :: rest =>
    match recursive_parse_image_seg fetch to_image s with
    | .ok s2 =>
      match recursive_parse_image_list fetch to_image rest with
      | .ok r2 => .ok (s2 :: r2)
      | .error e => .error e
    | .error e => .error e
end

/-- Embedding of `RecvHandler.handle_forward_message(message_list)`: expand, then pick the
image treatment from the global count. -/
def handle_forward_message (fetch : String → Option String)
    (message_list : List FwdEntry) : Except String (Option Seg) :=
  match handleForwardList message_list 0 with
  | (none, _) => .ok none
  | (some handled_message, image_count) =>
    if image_count < 5 ∧ image_count > 0 then
      match recursive_parse_image_seg fetch true handled_message with
      | .ok m => .ok (some m)
      | .error e => .error e
    else if image_count > 0 then
      match recursive_parse_image_seg fetch false handled_message with
      | .ok m => .ok (some m)
      | .error e => .error e
    else .ok (some handled_message)

mutual
/-- True iff the tree holds only genuine Segs (no truncation tuple, no
`None`) — i.e. no nested forward hit the depth cap or came back empty. -/
def segClean : Seg → Bool
  | .seg _ _ => true
  | .seglist l => segListClean l
  | .tup _ _ => false
  | .pynone => false

def segListClean : List Seg → Bool
  | [] => true
  | s :: rest => segClean s && segListClean rest
end

mutual
/-- Number of `image`/`emoji` leaves of a tree. -/
def countImages : Seg → Nat
  | .seg t _ => if t = "image" ∨ t = "emoji" then 1 else 0
  | .seglist l => countImagesList l
  | .tup s _ => countImages s
  | .pynone => 0

def countImagesList : List Seg → Nat
  | [] => 0
  | s :: rest => countImages s + countImagesList rest
end

mutual
/-- The total tree map that replaces every image/emoji leaf by its fetched
base64 content (or the fetch-failure text placeholder). -/
def base64ize (fetch : String → Option String) : Seg → Seg
  | .seg t p =>
    if t = "image" then
      match fetch p with
      | some e => .seg "image" e
      | none => .seg "text" "[图片]"
    else if t = "emoji" then
      match fetch p with
      | some e => .seg "emoji" e
      | none => .seg "text" "[表情包]"
    else .seg t p
  | .seglist l => .seglist (base64izeList fetch l)
  | .tup s n => .tup s n
  | .pynone => .pynone

def base64izeList (fetch : String → Option String) : List Seg → List Seg
  | [] => []
  | s :: rest => base64ize fetch s :: base64izeList fetch rest
end

mutual
/-- The total tree map that replaces every image/emoji leaf by the fixed text
placeholder. -/
def placeholderize : Seg → Seg
  | .seg t p =>
    if t = "image" then .seg "text" "【图片】"
    else if t = "emoji" then .seg "text" "【动画表情】"
    else .seg t p
  | .seglist l => .seglist (placeholderizeList l)
  | .tup s n => .tup s n
  | .pynone => .pynone

def placeholderizeList : List Seg → List Seg
  | [] => []
  | s :: rest => placeholderize s :: placeholderizeList rest
end

mutual
/-- True iff the tree contains a truncation tuple somewhere. -/
def containsTup : Seg → Bool
  | .seg _ _ => false
  | .seglist l => containsTupList l
  | .tup _ _ => true
  | .pynone => false

def containsTupList : List Seg → Bool
  | [] => false
  | s :: rest => containsTup s || containsTupList rest
end

/-- A forward message whose first entry nests forwards 4 deep (senders A, B,
C, D) with a text sibling from S next to the deepest forward. -/
def deepFwd : List FwdEntry :=
  [.mk (some "A") (.forward
    [.mk (some "B") (.forward
      [.mk (some "C") (.forward
        [.mk (some "D") (.forward [.mk (some "E") (.text "hi")]),
         .mk (some "S") (.text "bye")])])])]

/-- What `_handle_forward_message(deepFwd, 0)` builds: the nested forward of
D, met at layer 3, is rendered as the Python tuple
`(Seg(type="text", data="------【D】:【转发消息】\n"), 0)` — note the `.tup`
node — while the sibling entry from S is still expanded and the whole
expansion terminates. -/
def deepTree : Seg :=
  .seglist
    [.seglist
      [.seg "text" "【A】: 合并转发消息内容：\n",
       .seglist
         [.seglist
            [.seg "text" "--【B】: 合并转发消息内容：\n",
             .seglist
               [.seglist
                  [.seg "text" "----【C】: 合并转发消息内容：\n",
                   .seglist
                     [.tup (.seg "text" "------【D】:【转发消息】\n") 0,
                      .seglist
                        [.seg "text" "------【S】:",
                         .seg "text" "bye",
                         .seg "text" "\n"]]]]]]]]

/-- The deep nesting of `deepFwd` with an image entry beside it at top level,
so that the image policy pass runs over the truncated tree. -/
def deepFwdImage : List FwdEntry :=
  [.mk (some "a") (.forward
    [.mk (some "b") (.forward
      [.mk (some "c") (.forward
        [.mk (some "d") (.forward [.mk (some "e") (.text "x")])])])]),
   .mk (some "f") (.image 0 "http-u")]

/-- A flat forward message carrying three image elements (one of them a
sticker) and a text entry. -/
def fwdThreeImages : List FwdEntry :=
  [.mk (some "u1") (.image 0 "url1"),
   .mk (some "u2") (.image 1 "url2"),
   .mk (some "u3") (.text "hello"),
   .mk (some "u4") (.image 0 "url3")]

/-- The expansion of `fwdThreeImages`. -/
def threeTree : Seg :=
  .seglist
    [.seglist [.seg "text" "【u1】:", .seg "image" "url1", .seg "text" "\n"],
     .seglist [.seg "text" "【u2】:", .seg "emoji" "url2", .seg "text" "\n"],
     .seglist [.seg "text" "【u3】:", .seg "text" "hello", .seg "text" "\n"],
     .seglist [.seg "text" "【u4】:", .seg "image" "url3", .seg "text" "\n"]]

end RecvHandler

/-! ## `RecvHandler.handle_raw_message` dispatch — `recv_handler.py` lines 67–183

The `if message_type == private / elif message_type == group` chain assigns
the locals `user_info` and `group_info` only inside those two branches (the
unsupported sub-types return early with a warning).  There is no `else`
branch: control falls through to the `BaseMessageInfo(...)` construction,
whose argument `user_info=user_info` is the first read of an unassigned
local, raising `UnboundLocalError`. -/

namespace RecvHandler

/-- The `sender` dict fields the dispatch reads. -/
structure Sender where
  user_id : Option Int
  nickname : Option String
  card : Option String
deriving Repr, DecidableEq

/-- The raw-message fields the dispatch reads. -/
structure RawMessage where
  message_type : Option String
  sub_type : Option String
  sender : Sender
  group_id : Option Int
deriving Repr, DecidableEq

/-- Embedding of `maim_message.UserInfo` as constructed by `handle_raw_message`. -/
structure UserInfo where
  platform : String
  user_id : Option Int
  user_nickname : Option String
  user_cardname : Option String
deriving Repr, DecidableEq

/-- Embedding of `maim_message.GroupInfo` as constructed by `handle_raw_message`. -/
structure GroupInfo where
  platform : String
  group_id : Option Int
  group_name : Option String
deriving Repr, DecidableEq

/-- How far `handle_raw_message` gets for a given raw message. -/
inductive HRMOutcome where
  /-- An early `return None` after `logger.warning(warning)`. -/
  | unsupported (warning : String)
  /-- Control reaches the `BaseMessageInfo` construction with these locals. -/
  | buildsMessageInfo (user_info : UserInfo) (group_info : Option GroupInfo)
  /-- Control reaches the construction with the named local unassigned:
  Python raises `UnboundLocalError` there. -/
  | unboundLocalError (var : String)
deriving Repr, DecidableEq

/-- The branch structure of `handle_raw_message` up to the
`BaseMessageInfo` construction.  `fetched_group_name` models the
`get_group_info` round trip of the group branch (`none` = falsy response). -/
def handle_raw_message_head (platform : String)
    (fetched_group_name : Option (Option String)) (m : RawMessage) :
    HRMOutcome :=
  if m.message_type = some "private" then
    if m.sub_type = some "friend" then
      .buildsMessageInfo
        ⟨platform, m.sender.user_id, m.sender.nickname, m.sender.card⟩ none
    else if m.sub_type = some "group" then .unsupported "群临时消息类型不支持"
    else .unsupported "私聊消息类型不支持"
  else if m.message_type = some "group" then
    if m.sub_type = some "normal" then
      .buildsMessageInfo
        ⟨platform, m.sender.user_id, m.sender.nickname, m.sender.card⟩
        (some ⟨platform, m.group_id, fetched_group_name.join⟩)
    else .unsupported "群聊消息类型不支持"
  else .unboundLocalError "user_info"

end RecvHandler

/-! ## Connection Router — `maim_message/router.py`

`Router` owns one `MessageClient` per configured platform.  Client and task
objects are modelled by numeric ids drawn from a fresh-id counter, and the
externally visible actions (`task.cancel()`, `client.stop()`,
`MessageClient()` + `client.connect(...)`) are recorded in an event trace so
that "torn down" and "(re)connected" are statable.  The two `for platform
in <set>` loops of `_adjust_connections` iterate Python sets, whose order is
unspecified; the embedding iterates in list order of the respective configs —
each iteration only touches its own platform's entries, so the per-platform
results proved below do not depend on that order. -/

namespace Router

/-- Embedding of `TargetConfig` from `router.py`. -/
structure TargetConfig where
  url : String
  token : Option String
deriving Repr, DecidableEq

/-- Externally visible connection actions. -/
inductive REvent where
  /-- Embedding of `self._client_tasks[platform].cancel()` (plus the awaited gather). -/
  | cancelTask (platform : String) (taskId : Nat)
  /-- Embedding of `await self.clients[platform].stop()`. -/
  | stopClient (platform : String) (clientId : Nat)
  /-- Embedding of `MessageClient()` + `await client.connect(url, platform, token)`. -/
  | connectClient (platform : String) (clientId : Nat)
deriving Repr, DecidableEq

/-- The platform an event belongs to. -/
def REvent.platform : REvent → String
  | .cancelTask p _ => p
  | .stopClient p _ => p
  | .connectClient p _ => p

/-- The `Router` instance state: `self.config.route_config`, `self.clients`,
`self._client_tasks`, `self._running`, plus the fresh-id supply and the
event trace of the embedding. -/
structure RouterState where
  route_config : List (String × TargetConfig)
  clients : List (String × Nat)
  client_tasks : List (String × Nat)
  next_id : Nat
  running : Bool
  events : List REvent
deriving Repr, DecidableEq

/-- Embedding of `Router.remove_platform(platform)`: drop the platform's config entry,
cancel and drop its run task, stop and drop its client. -/
def remove_platform (s : RouterState) (p : String) : RouterState :=
  let s1 := { s with route_config := derase s.route_config p }
  let s2 :=
    match dlookup s1.client_tasks p with
    | some t =>
      { s1 with
        client_tasks := derase s1.client_tasks p,
        events := s1.events ++ [.cancelTask p t] }
    | none => s1
  match dlookup s2.clients p with
  | some c =>
    { s2 with
      clients := derase s2.clients p,
      events := s2.events ++ [.stopClient p c] }
  | none => s2

/-- Embedding of `Router.connect(platform)`: raises `ValueError` when the platform has no
config entry; otherwise creates a fresh `MessageClient`, connects it, stores
it, and (when running) spawns and stores its run task. -/
def connect (s : RouterState) (p : String) : Except String RouterState :=
  match dlookup s.route_config p with
  | none => .error "ValueError"
  | some _ =>
    .ok { s with
      clients := dinsert s.clients p s.next_id,
      client_tasks :=
        if s.running then dinsert s.client_tasks p s.next_id
        else s.client_tasks,
      next_id := s.next_id + 1,
      events := s.events ++ [.connectClient p s.next_id] }

/-- Total companion of `connect` (the `ValueError` is unreachable from
`add_platform`, which inserts the config entry first). -/
def connect_total (s : RouterState) (p : String) : RouterState :=
  { s with
    clients := dinsert s.clients p s.next_id,
    client_tasks :=
      if s.running then dinsert s.client_tasks p s.next_id
      else s.client_tasks,
    next_id := s.next_id + 1,
    events := s.events ++ [.connectClient p s.next_id] }

/-- Embedding of `Router.add_platform(platform, config)`: record the config entry and, if
running, connect.  (The config insert leaves `self._running` untouched, so
the `if self._running` test is written on the incoming state.) -/
def add_platform (s : RouterState) (p : String) (config : TargetConfig) :
    Except String RouterState :=
  if s.running then
    connect { s with route_config := dinsert s.route_config p config } p
  else .ok { s with route_config := dinsert s.route_config p config }

/-- Total companion of `add_platform`. -/
def add_platform_total (s : RouterState) (p : String) (config : TargetConfig) :
    RouterState :=
  if s.running then
    connect_total { s with route_config := dinsert s.route_config p config } p
  else { s with route_config := dinsert s.route_config p config }

/-- One iteration of the update/add loop of `_adjust_connections` (total
form): identical entry → untouched; changed url or token → `remove_platform`
then `add_platform`; absent from the old config → `add_platform`. -/
def adjust_step (st : RouterState) (pc : String × TargetConfig) : RouterState :=
  match dlookup st.route_config pc.1 with
  | some old_target =>
    if pc.2.url ≠ old_target.url ∨ pc.2.token ≠ old_target.token then
      add_platform_total (remove_platform st pc.1) pc.1 pc.2
    else st
  | none => add_platform_total st pc.1 pc.2

/-- Embedding of `Router._adjust_connections(new_config)`: first remove every platform of
the old table that is absent from the new one, then walk the new table
updating changed entries and adding new ones. -/
def adjust_connections (s : RouterState)
    (new_config : List (String × TargetConfig)) : Except String RouterState := do
  let removed :=
    (s.route_config.map Prod.fst).filter
      (fun p => (dlookup new_config p).isNone)
  let s1 := removed.foldl remove_platform s
  new_config.foldlM
    (fun st pc =>
      match dlookup st.route_config pc.1 with
      | some old_target =>
        if pc.2.url ≠ old_target.url ∨ pc.2.token ≠ old_target.token then
          add_platform (remove_platform st pc.1) pc.1 pc.2
        else pure st
      | none => add_platform st pc.1 pc.2)
    s1

/-- Embedding of `Router.update_config(config_data)`: adjust the connections when running,
then install the new table as `self.config`. -/
def update_config (s : RouterState)
    (new_config : List (String × TargetConfig)) : Except String RouterState := do
  let s1 ← if s.running then adjust_connections s new_config else pure s
  pure { s1 with route_config := new_config }

/-- State of the per-platform entries visible to the caller. -/
def keyState (st : RouterState) (q : String) :
    Option TargetConfig × Option Nat × Option Nat :=
  (dlookup st.route_config q, dlookup st.clients q, dlookup st.client_tasks q)

/-- Key-nodup well-formedness of a running router. -/
def WF (st : RouterState) : Prop :=
  (st.route_config.map Prod.fst).Nodup ∧
  (st.clients.map Prod.fst).Nodup ∧
  (st.client_tasks.map Prod.fst).Nodup ∧
  st.running = true

/-- A running router serving platforms `a`, `b`, `c` with clients 0, 1, 2. -/
def routerW : RouterState :=
  { route_config := [("a", ⟨"ua", none⟩), ("b", ⟨"ub", none⟩), ("c", ⟨"uc", none⟩)],
    clients := [("a", 0), ("b", 1), ("c", 2)],
    client_tasks := [("a", 0), ("b", 1), ("c", 2)],
    next_id := 3,
    running := true,
    events := [] }

/-- A new route table: `a` unchanged, `b`'s url changed, `c` removed, `d` new. -/
def newTableW : List (String × TargetConfig) :=
  [("a", ⟨"ua", none⟩), ("b", ⟨"ub2", none⟩), ("d", ⟨"ud", none⟩)]

end Router

/-! ## Theorems -/

theorem dlookup_dinsert_self {κ α : Type} [DecidableEq κ]
    (d : List (κ × α)) (k : κ) (v : α) : dlookup (dinsert d k v) k = some v := by
  induction d with
  | nil => simp [dinsert, dlookup]
  | cons h t ih =>
    by_cases hk : h.1 = k <;> simp [dinsert, dlookup, hk, ih]

theorem dlookup_dinsert_ne {κ α : Type} [DecidableEq κ]
    (d : List (κ × α)) (k k' : κ) (v : α) (h : k ≠ k') :
    dlookup (dinsert d k v) k' = dlookup d k' := by
  induction d with
  | nil => simp [dinsert, dlookup, h]
  | cons hd t ih =>
    by_cases hk : hd.1 = k <;> simp [dinsert, dlookup, hk, h, ih]

theorem dlookup_eq_none_of_not_mem {κ α : Type} [DecidableEq κ]
    (d : List (κ × α)) (k : κ) (h : k ∉ d.map Prod.fst) :
    dlookup d k = none := by
  induction d with
  | nil => simp [dlookup]
  | cons hd t ih =>
    simp only [List.map_cons, List.mem_cons] at h
    push_neg at h
    simp only [dlookup, if_neg (fun hc : hd.1 = k => h.1 hc.symm)]
    exact ih h.2

theorem dlookup_derase_self {κ α : Type} [DecidableEq κ]
    (d : List (κ × α)) (k : κ) (hnd : (d.map Prod.fst).Nodup) :
    dlookup (derase d k) k = none := by
  induction d with
  | nil => simp [derase, dlookup]
  | cons hd t ih =>
    simp only [List.map_cons, List.nodup_cons] at hnd
    by_cases hk : hd.1 = k
    · subst hk
      simp only [derase, if_pos rfl]
      exact dlookup_eq_none_of_not_mem t hd.1 hnd.1
    · simp [derase, hk, dlookup, ih hnd.2]

theorem dlookup_derase_ne {κ α : Type} [DecidableEq κ]
    (d : List (κ × α)) (k k' : κ) (h : k ≠ k') :
    dlookup (derase d k) k' = dlookup d k' := by
  induction d with
  | nil => simp [derase, dlookup]
  | cons hd t ih =>
    by_cases hk : hd.1 = k
    · subst hk
      simp [derase, dlookup, fun hc : hd.1 = k' => h hc]
    · simp [derase, hk, dlookup, ih]

theorem get_response_loop_timeout {α : Type} (hist : Nat → Store α)
    (rid : String) :
    ∀ m n, n + m = max_retries → 1 ≤ m →
    (∀ k, n ≤ k → k < max_retries →
      dlookup (hist k).response_dict (some rid) = none) →
    get_response_loop hist rid n n = (none, hist (max_retries - 1), max_retries) := by
  intro m
  induction m with
  | zero => intro n hn h1 _; omega
  | succ m ih =>
    intro n hn _ habsent
    have h50 : max_retries = 50 := rfl
    rw [get_response_loop]
    rw [habsent n (Nat.le_refl n) (by omega)]
    by_cases hm : m = 0
    · subst hm
      have hn49 : n = 49 := by omega
      subst hn49
      simp [max_retries]
    · have hng : ¬ (max_retries ≤ n + 1) := by omega
      simp only [if_neg hng]
      exact ih (n + 1) (by omega) (by omega)
        (fun k hk1 hk2 => habsent k (by omega) hk2)

theorem get_response_loop_found {α : Type} (hist : Nat → Store α)
    (rid : String) (r : α) :
    ∀ m n k0, n + m = max_retries → n ≤ k0 → k0 < max_retries →
    (∀ j, n ≤ j → j < k0 → dlookup (hist j).response_dict (some rid) = none) →
    dlookup (hist k0).response_dict (some rid) = some r →
    get_response_loop hist rid n n =
      (some r,
       ⟨derase (hist k0).response_dict (some rid),
        derase (hist k0).response_time_dict (some rid)⟩, k0 + 1) := by
  intro m
  induction m with
  | zero =>
    intro n k0 hn hle hlt
    have h50 : max_retries = 50 := rfl
    omega
  | succ m ih =>
    intro n k0 hn hle hlt habsent hfound
    have h50 : max_retries = 50 := rfl
    rw [get_response_loop]
    by_cases heq : n = k0
    · subst heq
      rw [hfound]
    · rw [habsent n (Nat.le_refl n) (by omega)]
      have hlt' : ¬ (max_retries ≤ n + 1) := by omega
      simp only [if_neg hlt']
      exact ih (n + 1) k0 (by omega) (by omega) hlt
        (fun j hj1 hj2 => habsent j (by omega) hj2) hfound

/-- C2.  The Correlation Store's `get_response` polls the shared
`response_dict` in a sleep(0.2 s) loop with `max_retries = 50` checks
(a window of 50 × 200 ms ≈ 10 s): it performs at most `max_retries`
membership checks; if no response for the token is ever stored during the
window it fails with `TimeoutError` (modelled by the `none` result) and
removes nothing from the store; if a response is stored by the time of some
check, it returns that response and pops the token's entry from both dicts,
so a later lookup of the token finds nothing and the token is resolved at
most once. -/
theorem get_response_poll_spec {α : Type} (hist : Nat → Store α)
    (rid : String) :
    max_retries * poll_tick_ms = 10000 ∧
    (get_response hist rid).2.2 ≤ max_retries ∧
    ((∀ k, k < max_retries → dlookup (hist k).response_dict (some rid) = none) →
      get_response hist rid = (none, hist (max_retries - 1), max_retries)) ∧
    (∀ k0, k0 < max_retries →
      (∀ j, j < k0 → dlookup (hist j).response_dict (some rid) = none) →
      ∀ r, dlookup (hist k0).response_dict (some rid) = some r →
      get_response hist rid =
        (some r,
         ⟨derase (hist k0).response_dict (some rid),
          derase (hist k0).response_time_dict (some rid)⟩, k0 + 1) ∧
      (((hist k0).response_dict.map Prod.fst).Nodup →
        dlookup (derase (hist k0).response_dict (some rid)) (some rid) = none)) := by
  have htimeout : (∀ k, k < max_retries →
      dlookup (hist k).response_dict (some rid) = none) →
      get_response hist rid = (none, hist (max_retries - 1), max_retries) :=
    fun habs => get_response_loop_timeout hist rid max_retries 0
      rfl (by norm_num [max_retries]) (fun k _ hk2 => habs k hk2)
  have hfound : ∀ k0, k0 < max_retries →
      (∀ j, j < k0 → dlookup (hist j).response_dict (some rid) = none) →
      ∀ r, dlookup (hist k0).response_dict (some rid) = some r →
      get_response hist rid =
        (some r,
         ⟨derase (hist k0).response_dict (some rid),
          derase (hist k0).response_time_dict (some rid)⟩, k0 + 1) :=
    fun k0 hk0 hj r hr =>
      get_response_loop_found hist rid r max_retries 0 k0 rfl (Nat.zero_le k0) hk0
        (fun j _ hj2 => hj j hj2) hr
  refine ⟨by norm_num [max_retries, poll_tick_ms], ?_, htimeout, ?_⟩
  · by_cases hall : ∀ k, k < max_retries →
        dlookup (hist k).response_dict (some rid) = none
    · rw [htimeout hall]
    · push_neg at hall
      obtain ⟨k, hklt, hkne⟩ := hall
      have hex : ∃ j, dlookup (hist j).response_dict (some rid) ≠ none := ⟨k, hkne⟩
      classical
      have hk0lt : Nat.find hex < max_retries :=
        lt_of_le_of_lt (Nat.find_min' hex hkne) hklt
      obtain ⟨r, hr⟩ := Option.ne_none_iff_exists'.mp (Nat.find_spec hex)
      have hj : ∀ j, j < Nat.find hex →
          dlookup (hist j).response_dict (some rid) = none :=
        fun j hjlt => not_not.mp (Nat.find_min hex hjlt)
      rw [hfound (Nat.find hex) hk0lt hj r hr]
      show Nat.find hex + 1 ≤ max_retries
      omega
  · intro k0 hk0 hj r hr
    exact ⟨hfound k0 hk0 hj r hr, fun hnd => dlookup_derase_self _ _ hnd⟩

/-- Witness for `get_response_poll_spec`: with no stored response, `get_response`
times out after all `max_retries` checks and leaves the store as it found it;
with a stored response, it returns it on the first check and removes the entry. -/
theorem get_response_poll_spec_witness :
    get_response histEmpty "t" = (none, ⟨[], []⟩, max_retries) ∧
    get_response histOne "t" = (some 7, ⟨[], []⟩, 1) ∧
    dlookup (derase (histOne 0).response_dict (some "t")) (some "t") = none := by
  refine ⟨?_, ?_, ?_⟩
  · exact (get_response_poll_spec histEmpty "t").2.2.1 (fun k _ => rfl)
  · exact ((get_response_poll_spec histOne "t").2.2.2 0 (by decide)
      (fun j hj => absurd hj (Nat.not_lt_zero j)) 7 rfl).1
  · exact ((get_response_poll_spec histOne "t").2.2.2 0 (by decide)
      (fun j hj => absurd hj (Nat.not_lt_zero j)) 7 rfl).2 (by simp [histOne])

/-! ### Further dict lemmas, for the sweep -/
theorem dlookup_some_mem {κ α : Type} [DecidableEq κ]
    {d : List (κ × α)} {k : κ} {v : α} (h : dlookup d k = some v) : (k, v) ∈ d := by
  induction d with
  | nil => simp [dlookup] at h
  | cons hd t ih =>
    by_cases hk : hd.1 = k
    · simp only [dlookup, if_pos hk] at h
      have hv : hd.2 = v := Option.some.injEq .. ▸ h
      have : hd = (k, v) := Prod.ext hk hv
      exact this ▸ List.mem_cons_self hd t
    · simp only [dlookup, if_neg hk] at h
      exact List.mem_cons_of_mem _ (ih h)

theorem mem_dlookup {κ α : Type} [DecidableEq κ]
    {d : List (κ × α)} {k : κ} {v : α} (hnd : (d.map Prod.fst).Nodup)
    (h : (k, v) ∈ d) : dlookup d k = some v := by
  induction d with
  | nil => simp at h
  | cons hd t ih =>
    simp only [List.map_cons, List.nodup_cons] at hnd
    rcases List.mem_cons.mp h with h1 | h2
    · subst h1
      simp [dlookup]
    · have hk : hd.1 ≠ k := by
        intro hc
        exact hnd.1 (hc ▸ List.mem_map.mpr ⟨(k, v), h2, rfl⟩)
      simp only [dlookup, if_neg hk]
      exact ih hnd.2 h2

theorem derase_map_fst_sublist {κ α : Type} [DecidableEq κ]
    (d : List (κ × α)) (k : κ) :
    ((derase d k).map Prod.fst).Sublist (d.map Prod.fst) := by
  induction d with
  | nil => simp [derase]
  | cons hd t ih =>
    by_cases hk : hd.1 = k
    · simp only [derase, if_pos hk, List.map_cons]
      exact List.sublist_cons_self _ _
    · simp only [derase, if_neg hk, List.map_cons]
      exact ih.cons₂ _

theorem derase_nodup {κ α : Type} [DecidableEq κ]
    {d : List (κ × α)} (k : κ) (hnd : (d.map Prod.fst).Nodup) :
    ((derase d k).map Prod.fst).Nodup :=
  (derase_map_fst_sublist d k).nodup hnd

theorem dlookup_derase_none {κ α : Type} [DecidableEq κ]
    {d : List (κ × α)} {k : κ} (j : κ) (h : dlookup d k = none) :
    dlookup (derase d j) k = none := by
  induction d with
  | nil => simp [derase, dlookup]
  | cons hd t ih =>
    by_cases hj : hd.1 = j
    · simp only [derase, if_pos hj]
      by_cases hk : hd.1 = k
      · simp [dlookup, if_pos hk] at h
      · simpa [dlookup, if_neg hk] using h
    · by_cases hk : hd.1 = k
      · simp [dlookup, if_pos hk] at h
      · simp only [derase, if_neg hj, dlookup, if_neg hk] at h ⊢
        exact ih h

theorem eraseAll_lookup_notmem {κ α : Type} [DecidableEq κ]
    (d : List (κ × α)) (ks : List κ) (k : κ) (h : k ∉ ks) :
    dlookup (eraseAll d ks) k = dlookup d k := by
  induction ks generalizing d with
  | nil => rfl
  | cons j t ih =>
    simp only [List.mem_cons] at h
    push_neg at h
    simp only [eraseAll, List.foldl_cons]
    rw [show List.foldl derase (derase d j) t = eraseAll (derase d j) t from rfl,
      ih (derase d j) h.2, dlookup_derase_ne d j k (fun hc => h.1 hc.symm)]

theorem eraseAll_lookup_none {κ α : Type} [DecidableEq κ]
    (d : List (κ × α)) (ks : List κ) (k : κ) (h : dlookup d k = none) :
    dlookup (eraseAll d ks) k = none := by
  induction ks generalizing d with
  | nil => exact h
  | cons j t ih =>
    simp only [eraseAll, List.foldl_cons]
    exact ih (derase d j) (dlookup_derase_none j h)

theorem eraseAll_lookup_mem {κ α : Type} [DecidableEq κ]
    (d : List (κ × α)) (ks : List κ) (k : κ)
    (hnd : (d.map Prod.fst).Nodup) (h : k ∈ ks) :
    dlookup (eraseAll d ks) k = none := by
  induction ks generalizing d with
  | nil => simp at h
  | cons j t ih =>
    simp only [eraseAll, List.foldl_cons]
    by_cases hk : j = k
    · subst hk
      exact eraseAll_lookup_none (derase d j) t j (dlookup_derase_self d j hnd)
    · rcases List.mem_cons.mp h with h1 | h2
      · exact absurd h1.symm hk
      · exact ih (derase d j) (derase_nodup j hnd) h2

theorem check_timeout_sweep_fold {α : Type}
    (l : List (Option String × Int)) (now interval : Int) :
    ∀ (rd : List (Option String × α)) (td0 : List (Option String × Int)) (c : Nat),
    l.foldl
      (fun (acc : Store α × Nat) kv =>
        if now - kv.2 > interval then
          (⟨derase acc.1.response_dict kv.1, derase acc.1.response_time_dict kv.1⟩,
           acc.2 + 1)
        else acc)
      (⟨rd, td0⟩, c) =
      (⟨eraseAll rd (expiredKeys l now interval),
        eraseAll td0 (expiredKeys l now interval)⟩,
       c + (expiredKeys l now interval).length) := by
  induction l with
  | nil => intro rd td0 c; simp [expiredKeys, eraseAll]
  | cons hd t ih =>
    intro rd td0 c
    by_cases hexp : now - hd.2 > interval
    · simp only [List.foldl_cons, if_pos hexp]
      rw [ih]
      simp [expiredKeys, eraseAll, List.filter_cons, hexp]
      omega
    · simp only [List.foldl_cons, if_neg hexp]
      rw [ih]
      simp [expiredKeys, eraseAll, List.filter_cons, hexp]

/-- C7 (amended).  One sweep iteration of `check_timeout_response` removes
exactly the entries whose age at sweep time exceeds the configured
`napcat_heartbeat_interval` (not the ≈10 s `get_response` window), reports the
number of removed entries in its log line, and leaves every younger entry —
and every entry without a recorded arrival time — unchanged. -/
theorem sweep_removes_exactly_expired {α : Type} (s : Store α)
    (now interval : Int)
    (hndt : (s.response_time_dict.map Prod.fst).Nodup)
    (hndr : (s.response_dict.map Prod.fst).Nodup) :
    (∀ k t, dlookup s.response_time_dict k = some t → now - t > interval →
      dlookup (check_timeout_sweep s now interval).1.response_time_dict k = none ∧
      dlookup (check_timeout_sweep s now interval).1.response_dict k = none) ∧
    (∀ k t, dlookup s.response_time_dict k = some t → ¬(now - t > interval) →
      dlookup (check_timeout_sweep s now interval).1.response_time_dict k = some t ∧
      dlookup (check_timeout_sweep s now interval).1.response_dict k =
        dlookup s.response_dict k) ∧
    (∀ k, dlookup s.response_time_dict k = none →
      dlookup (check_timeout_sweep s now interval).1.response_dict k =
        dlookup s.response_dict k) ∧
    (check_timeout_sweep s now interval).2 =
      (s.response_time_dict.filter (fun kv => now - kv.2 > interval)).length := by
  have hfold := check_timeout_sweep_fold (α := α) s.response_time_dict now interval
    s.response_dict s.response_time_dict 0
  have hsw : check_timeout_sweep s now interval =
      (⟨eraseAll s.response_dict (expiredKeys s.response_time_dict now interval),
        eraseAll s.response_time_dict (expiredKeys s.response_time_dict now interval)⟩,
       (expiredKeys s.response_time_dict now interval).length) := by
    rw [check_timeout_sweep]
    rw [show (⟨s.response_dict, s.response_time_dict⟩ : Store α) = s from rfl] at hfold
    rw [hfold]
    simp
  refine ⟨?_, ?_, ?_, ?_⟩
  · intro k t hk hexp
    have hmem : k ∈ expiredKeys s.response_time_dict now interval := by
      refine List.mem_map.mpr ⟨(k, t), List.mem_filter.mpr ⟨dlookup_some_mem hk, ?_⟩, rfl⟩
      simpa using hexp
    rw [hsw]
    exact ⟨eraseAll_lookup_mem _ _ _ hndt hmem, eraseAll_lookup_mem _ _ _ hndr hmem⟩
  · intro k t hk hyoung
    have hnotmem : k ∉ expiredKeys s.response_time_dict now interval := by
      intro hc
      obtain ⟨⟨k', t'⟩, hmem, hfst⟩ := List.mem_map.mp hc
      obtain ⟨hmem', hexp'⟩ := List.mem_filter.mp hmem
      simp only at hfst
      subst hfst
      rw [mem_dlookup hndt hmem'] at hk
      obtain rfl : t' = t := Option.some.injEq .. ▸ hk
      exact hyoung (by simpa using hexp')
    rw [hsw]
    exact ⟨(eraseAll_lookup_notmem _ _ _ hnotmem).trans hk,
      eraseAll_lookup_notmem _ _ _ hnotmem⟩
  · intro k hk
    have hnotmem : k ∉ expiredKeys s.response_time_dict now interval := by
      intro hc
      obtain ⟨⟨k', t'⟩, hmem, hfst⟩ := List.mem_map.mp hc
      obtain ⟨hmem', _⟩ := List.mem_filter.mp hmem
      simp only at hfst
      subst hfst
      rw [mem_dlookup hndt hmem'] at hk
      exact Option.noConfusion hk
    rw [hsw]
    exact eraseAll_lookup_notmem _ _ _ hnotmem
  · rw [hsw]
    simp [expiredKeys]

/-- Counterexample to C7 as stated: with the default configuration the sweep
threshold is `napcat_heartbeat_interval = 30` s, not the ≈10 s `get_response`
window.  An entry that arrived at time 0 and is swept at time 20 is 20 s old —
well past the 10 s window the claim names — yet the sweep removes nothing and
reports 0 removals. -/
theorem sweep_keeps_entry_older_than_ten_seconds :
    check_timeout_sweep (α := Nat) ⟨[(some "t", 1)], [(some "t", 0)]⟩ 20
        napcat_heartbeat_interval =
      (⟨[(some "t", 1)], [(some "t", 0)]⟩, 0) ∧
    (20 : Int) - 0 > 10 := by
  constructor
  · rfl
  · decide

/-- Witness for `sweep_removes_exactly_expired` on a concrete store holding one
expired entry (age 31 > 30) and one younger entry (age 5): the expired entry is
removed from both dicts, the younger entry survives untouched, and the logged
count is 1. -/
theorem sweep_removes_exactly_expired_witness :
    dlookup (check_timeout_sweep (α := Nat)
      ⟨[(some "old", 1), (some "new", 2)], [(some "old", 0), (some "new", 26)]⟩
      31 napcat_heartbeat_interval).1.response_dict (some "old") = none ∧
    dlookup (check_timeout_sweep (α := Nat)
      ⟨[(some "old", 1), (some "new", 2)], [(some "old", 0), (some "new", 26)]⟩
      31 napcat_heartbeat_interval).1.response_dict (some "new") = some 2 ∧
    (check_timeout_sweep (α := Nat)
      ⟨[(some "old", 1), (some "new", 2)], [(some "old", 0), (some "new", 26)]⟩
      31 napcat_heartbeat_interval).2 = 1 := by
  have h := sweep_removes_exactly_expired (α := Nat)
    ⟨[(some "old", 1), (some "new", 2)], [(some "old", 0), (some "new", 26)]⟩
    31 napcat_heartbeat_interval (by simp) (by simp)
  refine ⟨(h.1 (some "old") 0 rfl (by decide)).2, ?_, ?_⟩
  · have := (h.2.1 (some "new") 26 (by rfl) (by decide)).2
    rw [this]
    rfl
  · rw [h.2.2.2]
    rfl

/-- C6 (amended).  `put_response` records the response and its arrival time
under the response's `echo` token, silently overwriting any pending entry for
the same token: after the call the token maps to the new response and the new
time, every other token's entries are untouched, and no warning is logged
(the returned warning list is always empty). -/
theorem put_response_overwrites {α : Type} (s : Store α) (echo : Option String)
    (r : α) (now : Int) :
    (put_response s echo r now).2 = [] ∧
    dlookup (put_response s echo r now).1.response_dict echo = some r ∧
    dlookup (put_response s echo r now).1.response_time_dict echo = some now ∧
    (∀ k, k ≠ echo →
      dlookup (put_response s echo r now).1.response_dict k =
        dlookup s.response_dict k ∧
      dlookup (put_response s echo r now).1.response_time_dict k =
        dlookup s.response_time_dict k) := by
  refine ⟨rfl, dlookup_dinsert_self .., dlookup_dinsert_self .., fun k hk => ?_⟩
  exact ⟨dlookup_dinsert_ne _ _ _ _ (fun hc => hk hc.symm),
    dlookup_dinsert_ne _ _ _ _ (fun hc => hk hc.symm)⟩

/-- Counterexample to C6 as stated: a duplicate `put` for the pending token
`t` overwrites the stored response and arrival time but logs no warning —
the warning list of `put_response` is empty. -/
theorem duplicate_token_no_warning :
    put_response (α := Nat) ⟨[(some "t", 1)], [(some "t", 5)]⟩ (some "t") 2 9 =
      (⟨[(some "t", 2)], [(some "t", 9)]⟩, []) := rfl

/-- Witness for `put_response_overwrites` at a concrete pending store: the
entry for token `t` is overwritten and the entry for token `u` is untouched. -/
theorem put_response_overwrites_witness :
    dlookup (put_response (α := Nat)
        ⟨[(some "t", 1), (some "u", 4)], [(some "t", 5), (some "u", 6)]⟩
        (some "t") 2 9).1.response_dict (some "t") = some 2 ∧
    dlookup (put_response (α := Nat)
        ⟨[(some "t", 1), (some "u", 4)], [(some "t", 5), (some "u", 6)]⟩
        (some "t") 2 9).1.response_dict (some "u") = some 4 := by
  have h := put_response_overwrites (α := Nat)
    ⟨[(some "t", 1), (some "u", 4)], [(some "t", 5), (some "u", 6)]⟩
    (some "t") 2 9
  refine ⟨h.2.1, ?_⟩
  rw [(h.2.2.2 (some "u") (by decide)).1]
  rfl

/-- C5 (amended).  The classifier pushes exactly the frames whose `post_type`
is `message`, `meta_event` or `notice` onto the single FIFO queue, in receipt
order; forwards exactly the frames with no `post_type` to the Correlation
Store, in receipt order; and silently discards every frame with any other
`post_type` — no branch of `message_recv` logs anything, so the discarded
frames produce no log entry. -/
theorem classifier_dispatch_spec (frames : List (Option String × Nat)) :
    message_recv_loop frames =
      ((frames.filter (fun f => f.1 = some "meta_event" ∨ f.1 = some "message" ∨
          f.1 = some "notice")).map Prod.snd,
       (frames.filter (fun f => f.1 = none)).map Prod.snd,
       []) := by
  induction frames with
  | nil => rfl
  | cons hd t ih =>
    obtain ⟨pt, payload⟩ := hd
    by_cases h1 : pt = some "meta_event"
    · simp [message_recv_loop, message_recv_classify, h1, ih, List.filter_cons]
    · by_cases h2 : pt = some "message"
      · simp [message_recv_loop, message_recv_classify, h1, h2, ih, List.filter_cons]
      · by_cases h3 : pt = some "notice"
        · simp [message_recv_loop, message_recv_classify, h1, h2, h3, ih,
            List.filter_cons]
        · by_cases h4 : pt = none
          · simp [message_recv_loop, message_recv_classify, h1, h2, h3, h4, ih,
              List.filter_cons]
          · simp [message_recv_loop, message_recv_classify, h1, h2, h3, h4, ih,
              List.filter_cons]

/-- Counterexample to C5 as stated: a frame with the unlisted `post_type`
value `"request"` is dropped by `message_recv` with no log at all (the
warning for unknown `post_type` lives in the queue consumer `message_process`,
which never sees the frame because it is not enqueued), whereas the claim says
such frames are logged and dropped. -/
theorem unknown_post_type_not_logged :
    message_recv_loop [(some "request", 0)] = ([], [], []) ∧
    message_recv_classify (some "request") = (.ignore, []) := ⟨rfl, rfl⟩

namespace SendHandler

theorem process_nonreply (gf tg : String → String) (s : Seg)
    (hr : is_reply_seg s = false) (hc : seg_crashes s = false)
    (payload : List OutElem) :
    process_message_by_type gf tg s payload = .ok (payload ++ flat_elem gf tg s) := by
  match s with
  | .seg t d =>
    simp only [is_reply_seg, decide_eq_false_iff_not] at hr
    simp only [process_message_by_type, flat_elem, if_neg hr, build_payload]
    by_cases h2 : t = "text"
    · simp [h2]
    · by_cases h3 : t = "face"
      · simp [h2, h3]
      · by_cases h4 : t = "image"
        · simp [h2, h3, h4]
        · by_cases h5 : t = "emoji"
          · simp [h2, h3, h4, h5]
          · simp [h2, h3, h4, h5]
  | .seglist l => simp [process_message_by_type, flat_elem]
  | .tup v n => simp [seg_crashes] at hc
  | .pynone => simp [seg_crashes] at hc

theorem process_fold_nonreply (gf tg : String → String) (l : List Seg)
    (h : ∀ s ∈ l, is_reply_seg s = false ∧ seg_crashes s = false) :
    ∀ payload, process_fold gf tg l payload =
      .ok (payload ++ l.flatMap (flat_elem gf tg)) := by
  induction l with
  | nil => intro payload; simp [process_fold]
  | cons s rest ih =>
    intro payload
    obtain ⟨hr, hc⟩ := h s (List.mem_cons_self s rest)
    simp only [process_fold, process_nonreply gf tg s hr hc payload]
    rw [ih (fun x hx => h x (List.mem_cons_of_mem s hx))]
    simp

theorem process_fold_ok (gf tg : String → String) (l : List Seg)
    (h : ∀ s ∈ l, seg_crashes s = false) :
    ∀ payload, ∃ p2, process_fold gf tg l payload = .ok p2 := by
  induction l with
  | nil => intro payload; exact ⟨payload, rfl⟩
  | cons s rest ih =>
    intro payload
    have hc := h s (List.mem_cons_self s rest)
    have hok : ∃ q, process_message_by_type gf tg s payload = .ok q := by
      match s with
      | .seg t d =>
        simp only [process_message_by_type]
        by_cases h1 : t = "reply"
        · by_cases h2 : d = "notice" <;> simp [h1, h2]
        · by_cases h2 : t = "text"
          · simp [h1, h2]
          · by_cases h3 : t = "face"
            · simp [h1, h2, h3]
            · by_cases h4 : t = "image"
              · simp [h1, h2, h3, h4]
              · by_cases h5 : t = "emoji" <;> simp [h1, h2, h3, h4, h5]
      | .seglist l2 => exact ⟨payload, rfl⟩
      | .tup v n => simp [seg_crashes] at hc
      | .pynone => simp [seg_crashes] at hc
    obtain ⟨q, hq⟩ := hok
    simp only [process_fold, hq]
    exact ih (fun x hx => h x (List.mem_cons_of_mem s hx)) q

theorem process_fold_append (gf tg : String → String) (l1 l2 : List Seg)
    (payload : List OutElem) :
    process_fold gf tg (l1 ++ l2) payload =
      match process_fold gf tg l1 payload with
      | .ok p2 => process_fold gf tg l2 p2
      | .error e => .error e := by
  induction l1 generalizing payload with
  | nil => simp [process_fold]
  | cons s rest ih =>
    simp only [List.cons_append, process_fold]
    match hp : process_message_by_type gf tg s payload with
    | .ok q => exact ih q
    | .error e => rfl

/-- C4 (amended).  For a Segment tree whose root seglist contains exactly one
reply Segment as a direct child (with data not equal to `"notice"`), the other
direct children being arbitrary non-reply, non-crashing segments, the
flattened payload has the reply element at index 0 and the contributions of
the other children follow in their original order.  (Children that are
themselves seglists contribute nothing: `process_message_by_type` has no
`seglist` branch, so nested trees — including any reply buried inside them —
are dropped, not hoisted.) -/
theorem reply_hoisted_from_top_level (gf tg : String → String)
    (l1 l2 : List Seg) (rid : String)
    (h1 : ∀ s ∈ l1, is_reply_seg s = false ∧ seg_crashes s = false)
    (h2 : ∀ s ∈ l2, is_reply_seg s = false ∧ seg_crashes s = false)
    (hrid : rid ≠ "notice") :
    handle_seg_recursive gf tg (.seglist (l1 ++ .seg "reply" rid :: l2)) =
      .ok (.reply rid ::
        (l1.flatMap (flat_elem gf tg) ++ l2.flatMap (flat_elem gf tg))) := by
  simp only [handle_seg_recursive]
  rw [process_fold_append]
  rw [process_fold_nonreply gf tg l1 h1 []]
  simp only [List.nil_append, process_fold]
  have : process_message_by_type gf tg (.seg "reply" rid)
      (l1.flatMap (flat_elem gf tg)) =
      .ok (.reply rid :: l1.flatMap (flat_elem gf tg)) := by
    simp [process_message_by_type, hrid, build_payload]
  rw [this]
  show process_fold gf tg l2 (.reply rid :: l1.flatMap (flat_elem gf tg)) = _
  rw [process_fold_nonreply gf tg l2 h2]
  simp

/-- Counterexample to C4 as stated: a tree with its single reply Segment at
nesting depth 2 (inside a nested seglist).  The claim says the reply is
hoisted to index 0 of the output; in fact the flatten never visits nested
seglists, so the output is `[text "a"]` — the reply element is absent
altogether, and index 0 holds the text element. -/
theorem nested_reply_not_hoisted :
    handle_seg_recursive (fun _ => "gif") (fun s => s)
      (.seglist [.seg "text" "a", .seglist [.seg "reply" "42"]]) =
      .ok [.text "a"] := rfl

/-- Witness for `reply_hoisted_from_top_level`: a concrete tree
`seglist [text "a", reply "7", image "i"]` flattens to
`[reply "7", text "a", image "base64://i"]`. -/
theorem reply_hoisted_from_top_level_witness :
    handle_seg_recursive (fun _ => "gif") (fun s => s)
      (.seglist [.seg "text" "a", .seg "reply" "7", .seg "image" "i"]) =
      .ok [.reply "7", .text "a", .image "base64://i"] := by
  have h := reply_hoisted_from_top_level (fun _ => "gif") (fun s => s)
    [.seg "text" "a"] [.seg "image" "i"] "7"
    (by intro s hs; simp only [List.mem_singleton] at hs; subst hs; exact ⟨rfl, rfl⟩)
    (by intro s hs; simp only [List.mem_singleton] at hs; subst hs; exact ⟨rfl, rfl⟩)
    (by decide)
  simpa using h

/-- C10.  In the outbound transcoder, a reply Segment whose data is the string
`"notice"` makes `process_message_by_type` return the empty list, so the
accumulated contributions of all earlier siblings of the seglist are
discarded; flattening restarts from the empty payload on the remaining
siblings, and if those contribute nothing, `handle_seg` issues no send action
for the message. -/
theorem reply_notice_discards_payload (gf tg : String → String)
    (l1 l2 : List Seg) (g u : Option Int)
    (h1 : ∀ s ∈ l1, seg_crashes s = false) :
    (∀ payload, process_message_by_type gf tg (.seg "reply" "notice") payload =
      .ok []) ∧
    handle_seg_recursive gf tg (.seglist (l1 ++ .seg "reply" "notice" :: l2)) =
      process_fold gf tg l2 [] ∧
    (process_fold gf tg l2 [] = .ok [] →
      handle_seg_decision g u
        (handle_seg_recursive gf tg
          (.seglist (l1 ++ .seg "reply" "notice" :: l2))) = .noSend) := by
  have hkey : handle_seg_recursive gf tg
      (.seglist (l1 ++ .seg "reply" "notice" :: l2)) =
      process_fold gf tg l2 [] := by
    simp only [handle_seg_recursive]
    rw [process_fold_append]
    obtain ⟨p2, hp2⟩ := process_fold_ok gf tg l1 h1 []
    rw [hp2]
    simp [process_fold, process_message_by_type]
  refine ⟨fun payload => by simp [process_message_by_type], hkey, fun hempty => ?_⟩
  rw [hkey, hempty]
  simp [handle_seg_decision]

/-- Witness for `reply_notice_discards_payload`: the tree
`seglist [text "hello", reply "notice"]` flattens to the empty payload and no
send action is issued, although the text sibling had contributed an element. -/
theorem reply_notice_discards_payload_witness :
    handle_seg_recursive (fun _ => "gif") (fun s => s)
      (.seglist [.seg "text" "hello", .seg "reply" "notice"]) = .ok [] ∧
    handle_seg_decision (some 5) (some 6)
      (handle_seg_recursive (fun _ => "gif") (fun s => s)
        (.seglist [.seg "text" "hello", .seg "reply" "notice"])) = .noSend := by
  have h := reply_notice_discards_payload (fun _ => "gif") (fun s => s)
    [.seg "text" "hello"] [] (some 5) (some 6)
    (by intro s hs; simp only [List.mem_singleton] at hs; subst hs; rfl)
  exact ⟨h.2.1, h.2.2 rfl⟩

end SendHandler

namespace RecvHandler

theorem countImagesList_append (a b : List Seg) :
    countImagesList (a ++ b) = countImagesList a + countImagesList b := by
  induction a with
  | nil => simp [countImagesList]
  | cons s rest ih => simp [countImagesList, ih]; omega

mutual
theorem count_items_eq (l : List FwdEntry) (layer : Nat) :
    (handleForwardItems l layer).2 = countImagesList (handleForwardItems l layer).1 := by
  match l with
  | [] => rfl
  | e :: rest =>
    have h1 := count_entry_eq e layer
    have h2 := count_items_eq rest layer
    simp only [handleForwardItems, countImagesList_append]
    omega

theorem count_entry_eq (e : FwdEntry) (layer : Nat) :
    (handleForwardEntry e layer).2 = countImagesList (handleForwardEntry e layer).1 := by
  match e with
  | .mk nickname head =>
    match head with
    | .forward content =>
      by_cases hl : layer ≥ 3
      · simp [handleForwardEntry, hl, countImagesList, countImages]
      · match content with
        | [] =>
          simp [handleForwardEntry, hl, countImagesList, countImages]
        | e2 :: rest2 =>
          have hrec := count_items_eq (e2 :: rest2) (layer + 1)
          simp only [handleForwardEntry, if_neg hl]
          simp [countImagesList, countImages, hrec]
    | .text s =>
      by_cases hl : layer > 0 <;>
        simp [handleForwardEntry, hl, countImagesList, countImages]
    | .image sub_type url =>
      by_cases hs : sub_type = 0 <;> by_cases hl : layer > 0 <;>
        simp [handleForwardEntry, hl, hs, countImagesList, countImages]
    | .otherElem t => simp [handleForwardEntry, countImagesList]
end

mutual
theorem parse_true_clean (fetch : String → Option String) (m : Seg)
    (h : segClean m = true) :
    recursive_parse_image_seg fetch true m = .ok (base64ize fetch m) := by
  match m with
  | .seg t p =>
    by_cases h1 : t = "image"
    · subst h1
      simp only [recursive_parse_image_seg, base64ize, if_pos rfl]
      match fetch p with
      | some e => rfl
      | none => rfl
    · by_cases h2 : t = "emoji"
      · subst h2
        simp only [recursive_parse_image_seg, base64ize, if_neg h1, if_pos rfl]
        match fetch p with
        | some e => rfl
        | none => rfl
      · simp [recursive_parse_image_seg, base64ize, h1, h2]
  | .seglist l =>
    have hl : segListClean l = true := by simpa [segClean] using h
    simp [recursive_parse_image_seg, parse_true_clean_list fetch l hl, base64ize]
  | .tup s n => simp [segClean] at h
  | .pynone => simp [segClean] at h

theorem parse_true_clean_list (fetch : String → Option String) (l : List Seg)
    (h : segListClean l = true) :
    recursive_parse_image_list fetch true l = .ok (base64izeList fetch l) := by
  match l with
  | [] => rfl
  | s :: rest =>
    simp only [segListClean, Bool.and_eq_true] at h
    simp [recursive_parse_image_list, parse_true_clean fetch s h.1,
      parse_true_clean_list fetch rest h.2, base64izeList]
end

mutual
theorem parse_false_clean (fetch : String → Option String) (m : Seg)
    (h : segClean m = true) :
    recursive_parse_image_seg fetch false m = .ok (placeholderize m) := by
  match m with
  | .seg t p =>
    by_cases h1 : t = "image"
    · simp [recursive_parse_image_seg, placeholderize, h1]
    · by_cases h2 : t = "emoji" <;>
        simp [recursive_parse_image_seg, placeholderize, h1, h2]
  | .seglist l =>
    have hl : segListClean l = true := by simpa [segClean] using h
    simp [recursive_parse_image_seg, parse_false_clean_list fetch l hl,
      placeholderize]
  | .tup s n => simp [segClean] at h
  | .pynone => simp [segClean] at h

theorem parse_false_clean_list (fetch : String → Option String) (l : List Seg)
    (h : segListClean l = true) :
    recursive_parse_image_list fetch false l = .ok (placeholderizeList l) := by
  match l with
  | [] => rfl
  | s :: rest =>
    simp only [segListClean, Bool.and_eq_true] at h
    simp [recursive_parse_image_list, parse_false_clean fetch s h.1,
      parse_false_clean_list fetch rest h.2, placeholderizeList]
end

mutual
theorem countImages_placeholderize (m : Seg) (h : segClean m = true) :
    countImages (placeholderize m) = 0 := by
  match m with
  | .seg t p =>
    by_cases h1 : t = "image"
    · simp [placeholderize, countImages, h1]
    · by_cases h2 : t = "emoji"
      · simp [placeholderize, countImages, h1, h2]
      · simp [placeholderize, countImages, h1, h2]
  | .seglist l =>
    have hl : segListClean l = true := by simpa [segClean] using h
    simpa [placeholderize, countImages] using countImages_placeholderize_list l hl
  | .tup s n => simp [segClean] at h
  | .pynone => simp [segClean] at h

theorem countImages_placeholderize_list (l : List Seg)
    (h : segListClean l = true) :
    countImagesList (placeholderizeList l) = 0 := by
  match l with
  | [] => rfl
  | s :: rest =>
    simp only [segListClean, Bool.and_eq_true] at h
    simp [placeholderizeList, countImagesList,
      countImages_placeholderize s h.1, countImages_placeholderize_list rest h.2]
end

mutual
theorem countImages_base64ize (fetch : String → Option String)
    (hf : ∀ u, (fetch u).isSome) (m : Seg) :
    countImages (base64ize fetch m) = countImages m := by
  match m with
  | .seg t p =>
    by_cases h1 : t = "image"
    · obtain ⟨e, he⟩ := Option.isSome_iff_exists.mp (hf p)
      simp [base64ize, countImages, h1, he]
    · by_cases h2 : t = "emoji"
      · obtain ⟨e, he⟩ := Option.isSome_iff_exists.mp (hf p)
        simp [base64ize, countImages, h1, h2, he]
      · simp [base64ize, countImages, h1, h2]
  | .seglist l =>
    simpa [base64ize, countImages] using countImages_base64ize_list fetch hf l
  | .tup s n => simp [base64ize, countImages, countImages_base64ize fetch hf s]
  | .pynone => rfl

theorem countImages_base64ize_list (fetch : String → Option String)
    (hf : ∀ u, (fetch u).isSome) (l : List Seg) :
    countImagesList (base64izeList fetch l) = countImagesList l := by
  match l with
  | [] => rfl
  | s :: rest =>
    simp [base64izeList, countImagesList, countImages_base64ize fetch hf s,
      countImages_base64ize_list fetch hf rest]
end

end RecvHandler

/-- C1 (amended).  For a top-level forward expansion whose expanded tree is
free of the depth-truncation tuple and of `None` (no nested forward deeper
than the cap and no empty nested forward), the count returned by
`_handle_forward_message` equals the number of image/emoji leaves of the
tree, and `handle_forward_message` applies exactly one uniform treatment
decided by that count: 0 → the tree is returned unchanged; 1–4 → every
image/emoji leaf is replaced by its fetched base64 content (a failed fetch
leaves a textual placeholder for that leaf); ≥5 → every image/emoji leaf is
replaced by the fixed text placeholder, so the result has no image leaves at
all; base64 and fixed-placeholder treatments are never mixed, the result
being one of the three whole-tree maps.  (Without the tuple-freedom
hypothesis the claim fails: see the counterexample, where the image pass
raises `AttributeError`.) -/
theorem forward_image_policy (fetch : String → Option String)
    (l : List RecvHandler.FwdEntry) (m : Seg) (c : Nat)
    (hexp : RecvHandler.handleForwardList l 0 = (some m, c))
    (hclean : RecvHandler.segClean m = true) :
    c = RecvHandler.countImages m ∧
    (c = 0 → RecvHandler.handle_forward_message fetch l = .ok (some m)) ∧
    (0 < c → c < 5 →
      RecvHandler.handle_forward_message fetch l =
        .ok (some (RecvHandler.base64ize fetch m))) ∧
    (5 ≤ c →
      RecvHandler.handle_forward_message fetch l =
        .ok (some (RecvHandler.placeholderize m))) ∧
    RecvHandler.countImages (RecvHandler.placeholderize m) = 0 ∧
    ((∀ u, (fetch u).isSome) →
      RecvHandler.countImages (RecvHandler.base64ize fetch m) =
        RecvHandler.countImages m) := by
  have hc : c = RecvHandler.countImages m := by
    match l with
    | [] => simp [RecvHandler.handleForwardList] at hexp
    | e :: rest =>
      simp only [RecvHandler.handleForwardList] at hexp
      obtain ⟨hm, hcnt⟩ := Prod.ext_iff.mp hexp
      simp only at hm hcnt
      have hm' := Option.some.inj hm
      rw [← hcnt, ← hm']
      simpa [RecvHandler.countImages] using RecvHandler.count_items_eq (e :: rest) 0
  have hmain : RecvHandler.handle_forward_message fetch l =
      (if c < 5 ∧ c > 0 then
        match RecvHandler.recursive_parse_image_seg fetch true m with
        | .ok m2 => .ok (some m2)
        | .error e => .error e
      else if c > 0 then
        match RecvHandler.recursive_parse_image_seg fetch false m with
        | .ok m2 => .ok (some m2)
        | .error e => .error e
      else .ok (some m)) := by
    rw [RecvHandler.handle_forward_message, hexp]
  refine ⟨hc, ?_, ?_, ?_,
    RecvHandler.countImages_placeholderize m hclean,
    fun hf => RecvHandler.countImages_base64ize fetch hf m⟩
  · intro h0
    subst h0
    simpa using hmain
  · intro hpos hlt
    rw [hmain, if_pos ⟨hlt, hpos⟩, RecvHandler.parse_true_clean fetch m hclean]
  · intro hge
    rw [hmain, if_neg (by omega), if_pos (by omega),
      RecvHandler.parse_false_clean fetch m hclean]

/-- C3 (code bug).  A forward message nested 5 levels deep is truncated at
layer 3: the expansion does not recurse further, sibling entries (here the
text from S) are still expanded, and the whole expansion terminates — but
where the claim (and the surrounding code) expects a one-line placeholder
*Segment* naming the sender, the code's `full_seg_data = (Seg(...), 0)`
appends a Python *tuple* containing that Segment into `seg_list`.  The
resulting tree (returned unchanged here because it has no image leaves)
contains the tuple, and the image-policy pass `_recursive_parse_image_seg`
raises `AttributeError` on it — the `, 0` is a slip, contradicting the
function's own contract of returning a tree of Segs. -/
theorem forward_truncation_emits_tuple :
    RecvHandler.handleForwardList RecvHandler.deepFwd 0 =
      (some RecvHandler.deepTree, 0) ∧
    RecvHandler.containsTup RecvHandler.deepTree = true ∧
    RecvHandler.handle_forward_message (fun u => some u) RecvHandler.deepFwd =
      .ok (some RecvHandler.deepTree) ∧
    RecvHandler.recursive_parse_image_seg (fun u => some u) true
      RecvHandler.deepTree = .error "AttributeError" :=
  ⟨rfl, rfl, rfl, rfl⟩

/-- Counterexample to C1 as stated: the expansion of `deepFwdImage` counts
exactly one image leaf, so the claim requires every image/emoji leaf to be
replaced by its fetched base64 content; instead the transcoder raises
`AttributeError` (the depth-truncation tuple inside the tree is not a Seg),
and no treatment is applied at all. -/
theorem forward_policy_crashes_on_deep_nesting :
    (RecvHandler.handleForwardList RecvHandler.deepFwdImage 0).2 = 1 ∧
    RecvHandler.handle_forward_message (fun u => some ("B64" ++ u))
      RecvHandler.deepFwdImage = .error "AttributeError" :=
  ⟨rfl, rfl⟩

/-- Witness for `forward_image_policy`: the flat three-image forward expands
to `threeTree`, whose image count 3 selects the base64 treatment uniformly. -/
theorem forward_image_policy_witness :
    (RecvHandler.handleForwardList RecvHandler.fwdThreeImages 0).2 =
      RecvHandler.countImages RecvHandler.threeTree ∧
    RecvHandler.handle_forward_message (fun u => some ("B64" ++ u))
      RecvHandler.fwdThreeImages =
      .ok (some (RecvHandler.base64ize (fun u => some ("B64" ++ u))
        RecvHandler.threeTree)) := by
  have h := forward_image_policy (fun u => some ("B64" ++ u))
    RecvHandler.fwdThreeImages RecvHandler.threeTree 3 rfl rfl
  exact ⟨h.1, h.2.2.1 (by norm_num) (by norm_num)⟩

/-- C9.  For every inbound message event whose `message_type` is neither
`"private"` nor `"group"`, `handle_raw_message` falls through the dispatch
chain without assigning `user_info` and raises `UnboundLocalError` at the
`BaseMessageInfo(..., user_info=user_info, ...)` construction — it does not
take any of the log-and-drop early returns. -/
theorem unknown_message_type_unbound_local (platform : String)
    (fetched_group_name : Option (Option String)) (m : RecvHandler.RawMessage)
    (h1 : m.message_type ≠ some "private")
    (h2 : m.message_type ≠ some "group") :
    RecvHandler.handle_raw_message_head platform fetched_group_name m =
      .unboundLocalError "user_info" ∧
    ∀ w, RecvHandler.handle_raw_message_head platform fetched_group_name m ≠
      .unsupported w := by
  constructor
  · simp [RecvHandler.handle_raw_message_head, h1, h2]
  · intro w
    simp [RecvHandler.handle_raw_message_head, h1, h2]

/-- Witness for `unknown_message_type_unbound_local`: a frame with
`message_type == "guild"` reaches the construction with `user_info`
unassigned. -/
theorem unknown_message_type_unbound_local_witness :
    RecvHandler.handle_raw_message_head "qq" none
      ⟨some "guild", some "channel", ⟨some 1, some "n", none⟩, none⟩ =
      .unboundLocalError "user_info" :=
  (unknown_message_type_unbound_local "qq" none
    ⟨some "guild", some "channel", ⟨some 1, some "n", none⟩, none⟩
    (by decide) (by decide)).1

theorem mem_dinsert_map_fst {κ α : Type} [DecidableEq κ]
    {d : List (κ × α)} {k q : κ} {v : α}
    (h : q ∈ (dinsert d k v).map Prod.fst) : q ∈ d.map Prod.fst ∨ q = k := by
  induction d with
  | nil => simpa [dinsert] using h
  | cons hd t ih =>
    by_cases hk : hd.1 = k
    · simp only [dinsert, if_pos hk, List.map_cons, List.mem_cons] at h
      rcases h with h1 | h2
      · exact Or.inr h1
      · exact Or.inl (by
          simp only [List.map_cons]
          exact List.mem_cons_of_mem hd.1 h2)
    · simp only [dinsert, if_neg hk, List.map_cons, List.mem_cons] at h
      rcases h with h1 | h2
      · exact Or.inl (by
          simp only [List.map_cons, List.mem_cons]
          exact Or.inl h1)
      · rcases ih h2 with h3 | h4
        · exact Or.inl (by
            simp only [List.map_cons]
            exact List.mem_cons_of_mem hd.1 h3)
        · exact Or.inr h4

theorem dinsert_map_fst_nodup {κ α : Type} [DecidableEq κ]
    {d : List (κ × α)} (k : κ) (v : α) (hnd : (d.map Prod.fst).Nodup) :
    ((dinsert d k v).map Prod.fst).Nodup := by
  induction d with
  | nil => simp [dinsert]
  | cons hd t ih =>
    simp only [List.map_cons, List.nodup_cons] at hnd
    by_cases hk : hd.1 = k
    · simp only [dinsert, if_pos hk, List.map_cons, List.nodup_cons]
      exact ⟨hk ▸ hnd.1, hnd.2⟩
    · simp only [dinsert, if_neg hk, List.map_cons, List.nodup_cons]
      refine ⟨fun hc => ?_, ih hnd.2⟩
      rcases mem_dinsert_map_fst hc with h1 | h2
      · exact hnd.1 h1
      · exact hk h2

theorem mem_map_fst_dlookup_ne_none {κ α : Type} [DecidableEq κ]
    {d : List (κ × α)} {k : κ} (h : k ∈ d.map Prod.fst) :
    dlookup d k ≠ none := by
  induction d with
  | nil => simp at h
  | cons hd t ih =>
    by_cases hk : hd.1 = k
    · simp [dlookup, hk]
    · simp only [List.map_cons, List.mem_cons] at h
      rcases h with h1 | h2
      · exact absurd h1.symm hk
      · simpa [dlookup, hk] using ih h2

namespace Router

theorem tc_eq_of (a b : TargetConfig) (h1 : a.url = b.url)
    (h2 : a.token = b.token) : a = b := by
  cases a; cases b; simp_all

theorem tc_changed_iff (a b : TargetConfig) :
    (a.url ≠ b.url ∨ a.token ≠ b.token) ↔ a ≠ b := by
  constructor
  · rintro (h | h) hc <;> exact h (by rw [hc])
  · intro h
    by_contra hc
    push_neg at hc
    exact h (tc_eq_of a b hc.1 hc.2)

/-! ### `remove_platform` lemmas -/
theorem remove_platform_eq (s : RouterState) (p : String) :
    remove_platform s p =
      { s with
        route_config := derase s.route_config p,
        client_tasks :=
          if (dlookup s.client_tasks p).isSome then derase s.client_tasks p
          else s.client_tasks,
        clients :=
          if (dlookup s.clients p).isSome then derase s.clients p
          else s.clients,
        events := s.events ++
          ((match dlookup s.client_tasks p with
            | some t => [REvent.cancelTask p t]
            | none => []) ++
           (match dlookup s.clients p with
            | some c => [REvent.stopClient p c]
            | none => [])) } := by
  rcases h1 : dlookup s.client_tasks p with _ | t <;>
    rcases h2 : dlookup s.clients p with _ | c <;>
      simp [remove_platform, h1, h2]

theorem remove_platform_frame (s : RouterState) (p q : String) (h : q ≠ p) :
    keyState (remove_platform s p) q = keyState s q := by
  have hne : p ≠ q := fun hc => h hc.symm
  rw [remove_platform_eq]
  unfold keyState
  simp only
  rw [dlookup_derase_ne _ _ _ hne]
  by_cases h1 : (dlookup s.client_tasks p).isSome <;>
    by_cases h2 : (dlookup s.clients p).isSome <;>
      simp [h1, h2, dlookup_derase_ne _ p q hne]

theorem remove_platform_running (s : RouterState) (p : String) :
    (remove_platform s p).running = s.running := by
  rw [remove_platform_eq]

theorem remove_platform_next_id (s : RouterState) (p : String) :
    (remove_platform s p).next_id = s.next_id := by
  rw [remove_platform_eq]

theorem remove_platform_clients_self (s : RouterState) (p : String)
    (hnd : (s.clients.map Prod.fst).Nodup) :
    dlookup (remove_platform s p).clients p = none := by
  rw [remove_platform_eq]
  simp only
  by_cases h2 : (dlookup s.clients p).isSome
  · simp only [if_pos h2]
    exact dlookup_derase_self _ _ hnd
  · simp only [if_neg h2]
    exact Option.not_isSome_iff_eq_none.mp h2

theorem remove_platform_tasks_self (s : RouterState) (p : String)
    (hnd : (s.client_tasks.map Prod.fst).Nodup) :
    dlookup (remove_platform s p).client_tasks p = none := by
  rw [remove_platform_eq]
  simp only
  by_cases h2 : (dlookup s.client_tasks p).isSome
  · simp only [if_pos h2]
    exact dlookup_derase_self _ _ hnd
  · simp only [if_neg h2]
    exact Option.not_isSome_iff_eq_none.mp h2

theorem remove_platform_events (s : RouterState) (p : String) :
    ∃ evs, (remove_platform s p).events = s.events ++ evs ∧
      (∀ e ∈ evs, e.platform = p) ∧
      (∀ c, dlookup s.clients p = some c → REvent.stopClient p c ∈ evs) := by
  rw [remove_platform_eq]
  refine ⟨_, rfl, ?_, ?_⟩
  · intro e he
    rcases List.mem_append.mp he with h1 | h2
    · cases hl : dlookup s.client_tasks p <;> rw [hl] at h1 <;>
        simp only [List.mem_singleton, List.not_mem_nil] at h1
      subst h1
      rfl
    · cases hl : dlookup s.clients p <;> rw [hl] at h2 <;>
        simp only [List.mem_singleton, List.not_mem_nil] at h2
      subst h2
      rfl
  · intro c hc
    rw [hc]
    exact List.mem_append_right _ (List.mem_singleton.mpr rfl)

theorem remove_platform_wf (s : RouterState) (p : String) (h : WF s) :
    WF (remove_platform s p) := by
  obtain ⟨h1, h2, h3, h4⟩ := h
  rw [remove_platform_eq]
  refine ⟨(derase_map_fst_sublist _ _).nodup h1, ?_, ?_, h4⟩
  · by_cases hc : (dlookup s.clients p).isSome
    · simpa [hc] using (derase_map_fst_sublist s.clients p).nodup h2
    · simpa [hc] using h2
  · by_cases hc : (dlookup s.client_tasks p).isSome
    · simpa [hc] using (derase_map_fst_sublist s.client_tasks p).nodup h3
    · simpa [hc] using h3

/-! ### `connect` / `add_platform` lemmas -/
theorem connect_total_frame (s : RouterState) (p q : String) (h : q ≠ p) :
    keyState (connect_total s p) q = keyState s q := by
  have hne : p ≠ q := fun hc => h hc.symm
  unfold connect_total keyState
  simp only
  rw [dlookup_dinsert_ne _ _ _ _ hne]
  by_cases hr : s.running <;> simp [hr, dlookup_dinsert_ne _ p q _ hne]

theorem connect_total_clients_self (s : RouterState) (p : String) :
    dlookup (connect_total s p).clients p = some s.next_id := by
  unfold connect_total
  simp only
  exact dlookup_dinsert_self ..

theorem connect_total_tasks_self (s : RouterState) (p : String)
    (hr : s.running = true) :
    dlookup (connect_total s p).client_tasks p = some s.next_id := by
  unfold connect_total
  simp only [hr, if_pos rfl]
  exact dlookup_dinsert_self ..

theorem connect_total_events (s : RouterState) (p : String) :
    (connect_total s p).events = s.events ++ [.connectClient p s.next_id] := rfl

theorem connect_total_running (s : RouterState) (p : String) :
    (connect_total s p).running = s.running := rfl

theorem connect_total_wf (s : RouterState) (p : String) (h : WF s) :
    WF (connect_total s p) := by
  obtain ⟨h1, h2, h3, h4⟩ := h
  refine ⟨h1, dinsert_map_fst_nodup _ _ h2, ?_, h4⟩
  unfold connect_total
  simp only [h4, if_pos rfl]
  exact dinsert_map_fst_nodup _ _ h3

theorem add_platform_eq (s : RouterState) (p : String) (c : TargetConfig) :
    add_platform s p c = .ok (add_platform_total s p c) := by
  unfold add_platform add_platform_total
  by_cases hr : s.running
  · simp only [hr, if_pos rfl]
    unfold connect connect_total
    rw [dlookup_dinsert_self]
    simp
  · simp [hr]

theorem add_platform_total_frame (s : RouterState) (p q : String)
    (c : TargetConfig) (h : q ≠ p) :
    keyState (add_platform_total s p c) q = keyState s q := by
  have hne : p ≠ q := fun hc => h hc.symm
  unfold add_platform_total
  by_cases hr : s.running = true
  · rw [if_pos hr, connect_total_frame _ _ _ h]
    unfold keyState
    simp only
    rw [dlookup_dinsert_ne _ _ _ _ hne]
  · rw [if_neg hr]
    unfold keyState
    simp only
    rw [dlookup_dinsert_ne _ _ _ _ hne]

theorem add_platform_total_clients_self (s : RouterState) (p : String)
    (c : TargetConfig) (hr : s.running = true) :
    dlookup (add_platform_total s p c).clients p = some s.next_id := by
  unfold add_platform_total
  rw [if_pos hr]
  exact connect_total_clients_self ..

theorem add_platform_total_events (s : RouterState) (p : String)
    (c : TargetConfig) (hr : s.running = true) :
    (add_platform_total s p c).events =
      s.events ++ [.connectClient p s.next_id] := by
  unfold add_platform_total
  rw [if_pos hr]
  rfl

theorem add_platform_total_running (s : RouterState) (p : String)
    (c : TargetConfig) : (add_platform_total s p c).running = s.running := by
  unfold add_platform_total
  by_cases hr : s.running = true
  · rw [if_pos hr]
    exact hr.trans hr.symm ▸ rfl
  · rw [if_neg hr]

theorem add_platform_total_wf (s : RouterState) (p : String) (c : TargetConfig)
    (h : WF s) : WF (add_platform_total s p c) := by
  obtain ⟨h1, h2, h3, h4⟩ := h
  unfold add_platform_total
  rw [if_pos h4]
  exact connect_total_wf _ _ ⟨dinsert_map_fst_nodup _ _ h1, h2, h3, h4⟩

/-! ### `adjust_step` lemmas -/
theorem adjust_step_frame (st : RouterState) (pc : String × TargetConfig)
    (q : String) (h : q ≠ pc.1) :
    keyState (adjust_step st pc) q = keyState st q := by
  unfold adjust_step
  cases dlookup st.route_config pc.1 with
  | none => exact add_platform_total_frame _ _ _ _ h
  | some old =>
    by_cases hch : pc.2.url ≠ old.url ∨ pc.2.token ≠ old.token
    · simp only [if_pos hch]
      rw [add_platform_total_frame _ _ _ _ h, remove_platform_frame _ _ _ h]
    · simp [hch]

theorem adjust_step_wf (st : RouterState) (pc : String × TargetConfig)
    (h : WF st) : WF (adjust_step st pc) := by
  unfold adjust_step
  cases dlookup st.route_config pc.1 with
  | none => exact add_platform_total_wf _ _ _ h
  | some old =>
    by_cases hch : pc.2.url ≠ old.url ∨ pc.2.token ≠ old.token
    · simp only [if_pos hch]
      exact add_platform_total_wf _ _ _ (remove_platform_wf _ _ h)
    · simpa [hch] using h

theorem adjust_step_identical (st : RouterState) (pc : String × TargetConfig)
    (h : dlookup st.route_config pc.1 = some pc.2) :
    adjust_step st pc = st := by
  unfold adjust_step
  rw [h]
  simp

theorem adjust_step_events (st : RouterState) (pc : String × TargetConfig) :
    ∃ evs, (adjust_step st pc).events = st.events ++ evs ∧
      (∀ e ∈ evs, e.platform = pc.1) ∧
      (dlookup st.route_config pc.1 = some pc.2 → evs = []) ∧
      (∀ old, dlookup st.route_config pc.1 = some old →
        (pc.2.url ≠ old.url ∨ pc.2.token ≠ old.token) →
        ∀ c, dlookup st.clients pc.1 = some c →
          REvent.stopClient pc.1 c ∈ evs) ∧
      (st.running = true → dlookup st.route_config pc.1 ≠ some pc.2 →
        ∃ cid, dlookup (adjust_step st pc).clients pc.1 = some cid ∧
          REvent.connectClient pc.1 cid ∈ evs) := by
  unfold adjust_step
  cases hl : dlookup st.route_config pc.1 with
  | none =>
    by_cases hr : st.running = true
    · refine ⟨[.connectClient pc.1 st.next_id],
        add_platform_total_events _ _ _ hr, ?_, by simp [hl], ?_, ?_⟩
      · intro e he
        simp only [List.mem_singleton] at he
        rw [he]; rfl
      · intro old hold
        exact absurd hold (by simp)
      · intro _ _
        exact ⟨st.next_id, add_platform_total_clients_self _ _ _ hr,
          List.mem_singleton.mpr rfl⟩
    · refine ⟨[], ?_, by simp, by simp, ?_, ?_⟩
      · unfold add_platform_total
        simp [hr]
      · intro old hold
        exact absurd hold (by simp)
      · intro hr2
        exact absurd hr2 hr
  | some old =>
    by_cases hch : pc.2.url ≠ old.url ∨ pc.2.token ≠ old.token
    · simp only [if_pos hch]
      obtain ⟨evs1, he1, hp1, hstop1⟩ := remove_platform_events st pc.1
      by_cases hr : st.running = true
      · have hr2 : (remove_platform st pc.1).running = true := by
          rw [remove_platform_running]; exact hr
        refine ⟨evs1 ++ [.connectClient pc.1 (remove_platform st pc.1).next_id],
          ?_, ?_, ?_, ?_, ?_⟩
        · rw [add_platform_total_events _ _ _ hr2, he1, List.append_assoc]
        · intro e he
          rcases List.mem_append.mp he with h1 | h2
          · exact hp1 e h1
          · simp only [List.mem_singleton] at h2
            rw [h2]; rfl
        · intro hc
          have hco : old = pc.2 := Option.some.inj hc
          subst hco
          simp at hch
        · intro old2 hold2 hch2 c hc
          exact List.mem_append_left _ (hstop1 c hc)
        · intro _ _
          exact ⟨(remove_platform st pc.1).next_id,
            add_platform_total_clients_self _ _ _ hr2,
            List.mem_append_right _ (List.mem_singleton.mpr rfl)⟩
      · refine ⟨evs1, ?_, hp1, ?_, ?_, ?_⟩
        · unfold add_platform_total
          have hr2 : ¬ ((remove_platform st pc.1).running = true) := by
            rw [remove_platform_running]
            exact hr
          rw [if_neg hr2]
          simpa using he1
        · intro hc
          have hco : old = pc.2 := Option.some.inj hc
          subst hco
          simp at hch
        · intro old2 hold2 hch2 c hc
          exact hstop1 c hc
        · intro hr2
          exact absurd hr2 hr
    · simp only [if_neg hch]
      refine ⟨[], by simp, by simp, by simp, ?_, ?_⟩
      · intro old2 hold2 hch2
        have hco : old2 = old := (Option.some.inj hold2).symm
        subst hco
        exact absurd hch2 hch
      · intro _ hne
        push_neg at hch
        exact absurd (congrArg some (tc_eq_of pc.2 old hch.1 hch.2)).symm hne

theorem keyState_route {st st' : RouterState} {q : String}
    (h : keyState st' q = keyState st q) :
    dlookup st'.route_config q = dlookup st.route_config q :=
  congrArg Prod.fst h

theorem keyState_clients {st st' : RouterState} {q : String}
    (h : keyState st' q = keyState st q) :
    dlookup st'.clients q = dlookup st.clients q :=
  congrArg (fun x => x.2.1) h

theorem keyState_tasks {st st' : RouterState} {q : String}
    (h : keyState st' q = keyState st q) :
    dlookup st'.client_tasks q = dlookup st.client_tasks q :=
  congrArg (fun x => x.2.2) h

/-! ### The removal loop of `_adjust_connections` -/
theorem remove_fold_spec (ps : List String) (st : RouterState) (hwf : WF st)
    (hnd : ps.Nodup) :
    WF (ps.foldl remove_platform st) ∧
    (∀ q, q ∉ ps → keyState (ps.foldl remove_platform st) q = keyState st q) ∧
    (∃ evs, (ps.foldl remove_platform st).events = st.events ++ evs ∧
      (∀ e ∈ evs, e.platform ∈ ps) ∧
      (∀ p ∈ ps, ∀ c, dlookup st.clients p = some c →
        REvent.stopClient p c ∈ evs)) ∧
    (∀ p ∈ ps, dlookup (ps.foldl remove_platform st).clients p = none ∧
      dlookup (ps.foldl remove_platform st).client_tasks p = none) := by
  induction ps generalizing st with
  | nil => exact ⟨hwf, by simp, ⟨[], by simp, by simp, by simp⟩, by simp⟩
  | cons p rest ih =>
    simp only [List.foldl_cons]
    obtain ⟨hp_notin, hnd2⟩ := List.nodup_cons.mp hnd
    have hwf2 := remove_platform_wf st p hwf
    obtain ⟨ihwf, ihframe, ⟨evs2, hevs2, hplat2, hstop2⟩, ihself⟩ :=
      ih (remove_platform st p) hwf2 hnd2
    obtain ⟨evs1, hevs1, hplat1, hstop1⟩ := remove_platform_events st p
    refine ⟨ihwf, ?_, ⟨evs1 ++ evs2, ?_, ?_, ?_⟩, ?_⟩
    · intro q hq
      simp only [List.mem_cons] at hq
      push_neg at hq
      rw [ihframe q hq.2, remove_platform_frame st p q hq.1]
    · rw [hevs2, hevs1, List.append_assoc]
    · intro e he
      rcases List.mem_append.mp he with h1 | h2
      · exact List.mem_cons.mpr (Or.inl (hplat1 e h1))
      · exact List.mem_cons_of_mem _ (hplat2 e h2)
    · intro p2 hp2 c hc
      rcases List.mem_cons.mp hp2 with h1 | h2
      · subst h1
        exact List.mem_append_left _ (hstop1 c hc)
      · have hne : p2 ≠ p := fun hc2 => hp_notin (hc2 ▸ h2)
        have hcl := keyState_clients (remove_platform_frame st p p2 hne)
        exact List.mem_append_right _ (hstop2 p2 h2 c (by rw [hcl]; exact hc))
    · intro p2 hp2
      rcases List.mem_cons.mp hp2 with h1 | h2
      · subst h1
        have h5 := ihframe p2 hp_notin
        refine ⟨?_, ?_⟩
        · rw [keyState_clients h5]
          exact remove_platform_clients_self st p2 hwf.2.1
        · rw [keyState_tasks h5]
          exact remove_platform_tasks_self st p2 hwf.2.2.1
      · exact ihself p2 h2

/-! ### The update/add loop of `_adjust_connections` -/
theorem adjust_fold_spec (R : String → Option TargetConfig)
    (l : List (String × TargetConfig)) (st : RouterState)
    (hwf : WF st) (hnd : (l.map Prod.fst).Nodup)
    (hinv : ∀ pc ∈ l, dlookup st.route_config pc.1 = R pc.1) :
    WF (l.foldl adjust_step st) ∧
    (∀ q, q ∉ l.map Prod.fst →
      keyState (l.foldl adjust_step st) q = keyState st q) ∧
    (∃ evs, (l.foldl adjust_step st).events = st.events ++ evs ∧
      (∀ e ∈ evs, ∃ pc ∈ l, e.platform = pc.1 ∧ R pc.1 ≠ some pc.2) ∧
      (∀ pc ∈ l, ∀ old, R pc.1 = some old →
        (pc.2.url ≠ old.url ∨ pc.2.token ≠ old.token) →
        ∀ c, dlookup st.clients pc.1 = some c →
          REvent.stopClient pc.1 c ∈ evs) ∧
      (∀ pc ∈ l, R pc.1 = some pc.2 →
        dlookup (l.foldl adjust_step st).clients pc.1 =
          dlookup st.clients pc.1 ∧
        dlookup (l.foldl adjust_step st).client_tasks pc.1 =
          dlookup st.client_tasks pc.1) ∧
      (∀ pc ∈ l, R pc.1 ≠ some pc.2 →
        ∃ cid, dlookup (l.foldl adjust_step st).clients pc.1 = some cid ∧
          REvent.connectClient pc.1 cid ∈ evs)) := by
  induction l generalizing st with
  | nil => exact ⟨hwf, by simp, ⟨[], by simp, by simp, by simp, by simp, by simp⟩⟩
  | cons pc rest ih =>
    simp only [List.foldl_cons]
    simp only [List.map_cons, List.nodup_cons] at hnd
    obtain ⟨hp_notin, hnd2⟩ := hnd
    have hRpc : dlookup st.route_config pc.1 = R pc.1 :=
      hinv pc (List.mem_cons_self pc rest)
    have hwf2 := adjust_step_wf st pc hwf
    have hinv2 : ∀ qc ∈ rest, dlookup (adjust_step st pc).route_config qc.1 = R qc.1 := by
      intro qc hqc
      have hne : qc.1 ≠ pc.1 := fun hc =>
        hp_notin (hc ▸ List.mem_map.mpr ⟨qc, hqc, rfl⟩)
      rw [keyState_route (adjust_step_frame st pc qc.1 hne)]
      exact hinv qc (List.mem_cons_of_mem pc hqc)
    obtain ⟨ihwf, ihframe, ⟨evs2, hevs2, hclass2, hstop2, hid2, hconn2⟩⟩ :=
      ih (adjust_step st pc) hwf2 hnd2 hinv2
    obtain ⟨evs1, hevs1, hplat1, hident1, hstop1, hconn1⟩ :=
      adjust_step_events st pc
    have hpc_frame : ∀ hq : pc.1 ∉ rest.map Prod.fst,
        keyState (rest.foldl adjust_step (adjust_step st pc)) pc.1 =
          keyState (adjust_step st pc) pc.1 := fun hq => ihframe pc.1 hq
    refine ⟨ihwf, ?_, ⟨evs1 ++ evs2, ?_, ?_, ?_, ?_, ?_⟩⟩
    · intro q hq
      simp only [List.map_cons, List.mem_cons] at hq
      push_neg at hq
      rw [ihframe q hq.2, adjust_step_frame st pc q hq.1]
    · rw [hevs2, hevs1, List.append_assoc]
    · intro e he
      rcases List.mem_append.mp he with h1 | h2
      · by_cases hR : R pc.1 = some pc.2
        · rw [hident1 (hRpc.trans hR)] at h1
          exact absurd h1 (List.not_mem_nil e)
        · exact ⟨pc, List.mem_cons_self pc rest, hplat1 e h1, hR⟩
      · obtain ⟨qc, hqc, hq1, hq2⟩ := hclass2 e h2
        exact ⟨qc, List.mem_cons_of_mem pc hqc, hq1, hq2⟩
    · intro pc2 hpc2 old hold hch c hc
      rcases List.mem_cons.mp hpc2 with h1 | h2
      · subst h1
        exact List.mem_append_left _
          (hstop1 old (hRpc.trans hold) hch c hc)
      · have hne : pc2.1 ≠ pc.1 := fun hcx =>
          hp_notin (hcx ▸ List.mem_map.mpr ⟨pc2, h2, rfl⟩)
        have hcl := keyState_clients (adjust_step_frame st pc pc2.1 hne)
        exact List.mem_append_right _
          (hstop2 pc2 h2 old hold hch c (by rw [hcl]; exact hc))
    · intro pc2 hpc2 hR
      rcases List.mem_cons.mp hpc2 with h1 | h2
      · subst h1
        have hident := adjust_step_identical st pc2 (hRpc.trans hR)
        have hframe := ihframe pc2.1 hp_notin
        rw [hident] at hframe ⊢
        exact ⟨keyState_clients hframe, keyState_tasks hframe⟩
      · have hne : pc2.1 ≠ pc.1 := fun hcx =>
          hp_notin (hcx ▸ List.mem_map.mpr ⟨pc2, h2, rfl⟩)
        have hfr := adjust_step_frame st pc pc2.1 hne
        obtain ⟨hc1, hc2⟩ := hid2 pc2 h2 hR
        exact ⟨hc1.trans (keyState_clients hfr), hc2.trans (keyState_tasks hfr)⟩
    · intro pc2 hpc2 hR
      rcases List.mem_cons.mp hpc2 with h1 | h2
      · subst h1
        obtain ⟨cid, hcid, hmem⟩ := hconn1 hwf.2.2.2 (by rw [hRpc]; exact hR)
        have hframe := ihframe pc2.1 hp_notin
        exact ⟨cid, (keyState_clients hframe).trans hcid,
          List.mem_append_left _ hmem⟩
      · obtain ⟨cid, hcid, hmem⟩ := hconn2 pc2 h2 hR
        exact ⟨cid, hcid, List.mem_append_right _ hmem⟩

/-! ### From the `Except`-monadic source shape to the total fold -/
theorem adjust_foldlM_eq (l : List (String × TargetConfig)) (st : RouterState) :
    List.foldlM (m := Except String)
      (fun st1 pc =>
        match dlookup st1.route_config pc.1 with
        | some old_target =>
          if pc.2.url ≠ old_target.url ∨ pc.2.token ≠ old_target.token then
            add_platform (remove_platform st1 pc.1) pc.1 pc.2
          else pure st1
        | none => add_platform st1 pc.1 pc.2)
      st l = .ok (l.foldl adjust_step st) := by
  induction l generalizing st with
  | nil => rfl
  | cons pc rest ih =>
    simp only [List.foldlM_cons, List.foldl_cons]
    cases hl : dlookup st.route_config pc.1 with
    | none =>
      rw [add_platform_eq st pc.1 pc.2]
      have hstep : adjust_step st pc = add_platform_total st pc.1 pc.2 := by
        unfold adjust_step
        rw [hl]
      rw [hstep]
      exact ih (add_platform_total st pc.1 pc.2)
    | some old =>
      by_cases hch : pc.2.url ≠ old.url ∨ pc.2.token ≠ old.token
      · simp only [if_pos hch]
        rw [add_platform_eq (remove_platform st pc.1) pc.1 pc.2]
        have hstep : adjust_step st pc =
            add_platform_total (remove_platform st pc.1) pc.1 pc.2 := by
          unfold adjust_step
          rw [hl]
          simp only [if_pos hch]
        rw [hstep]
        exact ih (add_platform_total (remove_platform st pc.1) pc.1 pc.2)
      · simp only [if_neg hch]
        have hstep : adjust_step st pc = st := by
          unfold adjust_step
          rw [hl]
          simp only [if_neg hch]
        rw [hstep]
        exact ih st

theorem adjust_connections_eq (s : RouterState)
    (new_config : List (String × TargetConfig)) :
    adjust_connections s new_config =
      .ok (new_config.foldl adjust_step
        (((s.route_config.map Prod.fst).filter
          (fun p => (dlookup new_config p).isNone)).foldl remove_platform s)) := by
  unfold adjust_connections
  exact adjust_foldlM_eq new_config _

theorem update_config_eq (s : RouterState)
    (new_config : List (String × TargetConfig)) (hrun : s.running = true) :
    update_config s new_config =
      .ok { (new_config.foldl adjust_step
        (((s.route_config.map Prod.fst).filter
          (fun p => (dlookup new_config p).isNone)).foldl remove_platform s))
        with route_config := new_config } := by
  unfold update_config
  rw [if_pos hrun]
  show adjust_connections s new_config >>= _ = _
  rw [adjust_connections_eq]
  rfl

end Router

/-- C8.  For `update_config(newTable)` on a running, well-formed router
(distinct platform keys in the old table, clients and tasks maps; distinct
keys in the new table), the connection diff is minimal: the call succeeds and
produces a state whose event trace extends the old one by `evs`, where (1)
every platform whose entry is identical in the old and new tables keeps
exactly its old client and run-task entries and is the subject of no
cancel/stop/connect event at all; (2) every emitted event concerns a platform
whose old and new table entries differ (removed, changed, or added); (3)
every removed platform ends with no client and no run task, its old client
(if any) having received a stop event; (4) every platform whose url or token
changed has its old client stopped and holds a freshly connected client; and
(5) every newly added platform holds a freshly connected client. -/
theorem update_config_diff_spec (s : Router.RouterState)
    (new_config : List (String × Router.TargetConfig))
    (hwf : Router.WF s) (hndnew : (new_config.map Prod.fst).Nodup) :
    ∃ s' evs, Router.update_config s new_config = .ok s' ∧
      s'.events = s.events ++ evs ∧
      (∀ p, dlookup s.route_config p = dlookup new_config p →
        dlookup s'.clients p = dlookup s.clients p ∧
        dlookup s'.client_tasks p = dlookup s.client_tasks p ∧
        (∀ e ∈ evs, e.platform ≠ p)) ∧
      (∀ e ∈ evs,
        dlookup s.route_config e.platform ≠ dlookup new_config e.platform) ∧
      (∀ p, dlookup s.route_config p ≠ none → dlookup new_config p = none →
        dlookup s'.clients p = none ∧ dlookup s'.client_tasks p = none ∧
        (∀ c, dlookup s.clients p = some c →
          Router.REvent.stopClient p c ∈ evs)) ∧
      (∀ p t t2, dlookup s.route_config p = some t →
        dlookup new_config p = some t2 → t ≠ t2 →
        (∀ c, dlookup s.clients p = some c →
          Router.REvent.stopClient p c ∈ evs) ∧
        (∃ cid, dlookup s'.clients p = some cid ∧
          Router.REvent.connectClient p cid ∈ evs)) ∧
      (∀ p t2, dlookup s.route_config p = none →
        dlookup new_config p = some t2 →
        ∃ cid, dlookup s'.clients p = some cid ∧
          Router.REvent.connectClient p cid ∈ evs) := by
  classical
  obtain ⟨hnd_route, hnd_clients, hnd_tasks, hrun⟩ := hwf
  set removed := (s.route_config.map Prod.fst).filter
    (fun p => (dlookup new_config p).isNone) with hremoved
  have hnd_removed : removed.Nodup := hnd_route.filter _
  set s1 := removed.foldl Router.remove_platform s with hs1
  obtain ⟨hwf1, hframe1, ⟨evsR, hevsR, hplatR, hstopR⟩, hselfR⟩ :=
    Router.remove_fold_spec removed s ⟨hnd_route, hnd_clients, hnd_tasks, hrun⟩
      hnd_removed
  have hnotin_removed : ∀ p, dlookup new_config p ≠ none → p ∉ removed := by
    intro p hne hmem
    rw [hremoved] at hmem
    obtain ⟨_, hpred⟩ := List.mem_filter.mp hmem
    exact hne (Option.isNone_iff_eq_none.mp (by simpa using hpred))
  have hinv : ∀ pc ∈ new_config,
      dlookup s1.route_config pc.1 = dlookup s.route_config pc.1 := by
    intro pc hpc
    have hmem : pc.1 ∈ new_config.map Prod.fst := List.mem_map.mpr ⟨pc, hpc, rfl⟩
    exact Router.keyState_route
      (hframe1 pc.1 (hnotin_removed pc.1 (mem_map_fst_dlookup_ne_none hmem)))
  obtain ⟨hwf2, hframe2, ⟨evsA, hevsA, hclassA, hstopA, hidA, hconnA⟩⟩ :=
    Router.adjust_fold_spec (fun q => dlookup s.route_config q) new_config s1
      hwf1 hndnew hinv
  set s2 := new_config.foldl Router.adjust_step s1 with hs2
  refine ⟨{ s2 with route_config := new_config }, evsR ++ evsA,
    Router.update_config_eq s new_config hrun, ?_, ?_, ?_, ?_, ?_, ?_⟩
  · show s2.events = s.events ++ (evsR ++ evsA)
    rw [hevsA, hevsR, List.append_assoc]
  · -- identical entries are untouched
    intro p hpeq
    have hclassAll : ∀ e, e ∈ evsR ++ evsA →
        dlookup s.route_config e.platform ≠ dlookup new_config e.platform := by
      intro e he
      rcases List.mem_append.mp he with h1 | h2
      · have hmem := hplatR e h1
        rw [hremoved] at hmem
        obtain ⟨hmemk, hpred⟩ := List.mem_filter.mp hmem
        have hpnone : dlookup new_config e.platform = none :=
          Option.isNone_iff_eq_none.mp (by simpa using hpred)
        rw [hpnone]
        exact mem_map_fst_dlookup_ne_none hmemk
      · obtain ⟨pc, hpc, hplat, hne⟩ := hclassA e h2
        rw [hplat, mem_dlookup hndnew hpc]
        exact hne
    have hnoev : ∀ e ∈ evsR ++ evsA, e.platform ≠ p := by
      intro e he hc
      exact hclassAll e he (hc ▸ hpeq)
    cases hlook : dlookup new_config p with
    | none =>
      have hold : dlookup s.route_config p = none := hpeq.trans hlook
      have hnot_old : p ∉ s.route_config.map Prod.fst := by
        intro hmem
        exact mem_map_fst_dlookup_ne_none hmem hold
      have hnotrem : p ∉ removed := by
        intro hmem
        rw [hremoved] at hmem
        exact hnot_old (List.mem_filter.mp hmem).1
      have hnot_new : p ∉ new_config.map Prod.fst := by
        intro hmem
        exact mem_map_fst_dlookup_ne_none hmem hlook
      have h1 := hframe1 p hnotrem
      have h2 := hframe2 p hnot_new
      exact ⟨(Router.keyState_clients h2).trans (Router.keyState_clients h1),
        (Router.keyState_tasks h2).trans (Router.keyState_tasks h1), hnoev⟩
    | some t =>
      have hnotrem : p ∉ removed :=
        hnotin_removed p (by rw [hlook]; exact Option.some_ne_none t)
      have h1 := hframe1 p hnotrem
      have hbind : (p, t) ∈ new_config := dlookup_some_mem hlook
      have hid := hidA (p, t) hbind (by rw [hpeq, hlook])
      exact ⟨hid.1.trans (Router.keyState_clients h1),
        hid.2.trans (Router.keyState_tasks h1), hnoev⟩
  · -- every event's platform has differing entries
    intro e he
    rcases List.mem_append.mp he with h1 | h2
    · have hmem := hplatR e h1
      rw [hremoved] at hmem
      obtain ⟨hmemk, hpred⟩ := List.mem_filter.mp hmem
      have hpnone : dlookup new_config e.platform = none :=
        Option.isNone_iff_eq_none.mp (by simpa using hpred)
      rw [hpnone]
      exact mem_map_fst_dlookup_ne_none hmemk
    · obtain ⟨pc, hpc, hplat, hne⟩ := hclassA e h2
      rw [hplat, mem_dlookup hndnew hpc]
      exact hne
  · -- removed platforms
    intro p hold hnew
    have hmemk : p ∈ s.route_config.map Prod.fst := by
      obtain ⟨v, hv⟩ := Option.ne_none_iff_exists'.mp hold
      exact List.mem_map.mpr ⟨(p, v), dlookup_some_mem hv, rfl⟩
    have hmem : p ∈ removed := by
      rw [hremoved]
      refine List.mem_filter.mpr ⟨hmemk, ?_⟩
      simp [hnew]
    have hnot_new : p ∉ new_config.map Prod.fst := by
      intro hmem2
      exact mem_map_fst_dlookup_ne_none hmem2 hnew
    have h2 := hframe2 p hnot_new
    refine ⟨(Router.keyState_clients h2).trans (hselfR p hmem).1,
      (Router.keyState_tasks h2).trans (hselfR p hmem).2, ?_⟩
    intro c hc
    exact List.mem_append_left _ (hstopR p hmem c hc)
  · -- changed platforms
    intro p t t2 hold hnew hne
    have hnotrem : p ∉ removed :=
      hnotin_removed p (by rw [hnew]; exact Option.some_ne_none t2)
    have h1 := hframe1 p hnotrem
    have hbind : (p, t2) ∈ new_config := dlookup_some_mem hnew
    have hch : t2.url ≠ t.url ∨ t2.token ≠ t.token :=
      (Router.tc_changed_iff t2 t).mpr (fun hc => hne hc.symm)
    constructor
    · intro c hc
      refine List.mem_append_right _ (hstopA (p, t2) hbind t hold hch c ?_)
      rw [Router.keyState_clients h1]
      exact hc
    · obtain ⟨cid, hcid, hmem⟩ := hconnA (p, t2) hbind (by
        rw [hold]
        intro hc
        exact hne (Option.some.inj hc))
      exact ⟨cid, hcid, List.mem_append_right _ hmem⟩
  · -- new platforms
    intro p t2 hold hnew
    have hbind : (p, t2) ∈ new_config := dlookup_some_mem hnew
    obtain ⟨cid, hcid, hmem⟩ := hconnA (p, t2) hbind (by
      rw [hold]
      exact fun hc => Option.noConfusion hc)
    exact ⟨cid, hcid, List.mem_append_right _ hmem⟩

/-- Witness for `update_config_diff_spec` on `routerW` / `newTableW`: the
update succeeds; platform `a` (identical entry) keeps client 0 and is touched
by no event; removed platform `c` ends with no client and its client 2 is
stopped; changed platform `b` and new platform `d` each hold a freshly
connected client. -/
theorem update_config_diff_spec_witness :
    ∃ s' evs, Router.update_config Router.routerW Router.newTableW = .ok s' ∧
      s'.events = evs ∧
      dlookup s'.clients "a" = some 0 ∧
      (∀ e ∈ evs, Router.REvent.platform e ≠ "a") ∧
      dlookup s'.clients "c" = none ∧
      Router.REvent.stopClient "c" 2 ∈ evs ∧
      Router.REvent.stopClient "b" 1 ∈ evs ∧
      (∃ cid, dlookup s'.clients "b" = some cid ∧
        Router.REvent.connectClient "b" cid ∈ evs) ∧
      (∃ cid, dlookup s'.clients "d" = some cid ∧
        Router.REvent.connectClient "d" cid ∈ evs) := by
  obtain ⟨s', evs, hok, hevs, hid, hclass, hrem, hch, hnew⟩ :=
    update_config_diff_spec Router.routerW Router.newTableW
      ⟨by decide, by decide, by decide, rfl⟩ (by decide)
  have hida := hid "a" (by decide)
  have hrc := hrem "c" (by decide) (by decide)
  have hbc := hch "b" ⟨"ub", none⟩ ⟨"ub2", none⟩ (by decide) (by decide) (by decide)
  have hdn := hnew "d" ⟨"ud", none⟩ (by decide) (by decide)
  refine ⟨s', evs, hok, by simpa using hevs, ?_, hida.2.2, hrc.1, ?_, ?_,
    hbc.2, hdn⟩
  · rw [hida.1]
    rfl
  · exact hrc.2.2 2 rfl
  · exact hbc.1 1 rfl

end MaimConnect
